import Mathlib

/-!
Verification development for the request-routing and streaming core of the
CLIProxyAPI repository.  Each component the claims touch is shallowly embedded
as executable Lean definitions over lists of characters; where the repository
ships only the tests of a component, the definition is modelled from the
design document and validated against those tests.
-/

namespace CLIProxy

/-! ## Character-list helpers (strings are modelled as `List Char`) -/

/-- Whitespace predicate used by trimming (space, tab, CR, LF). -/
def isWS (c : Char) : Bool := c = ' ' || c = '\t' || c = '\r' || c = '\n'

/-- Trim whitespace from both ends, as Go `strings.TrimSpace`. -/
def trimC (l : List Char) : List Char :=
  ((l.dropWhile isWS).reverse.dropWhile isWS).reverse

/-- Lowercase every character, as Go `strings.ToLower` on ASCII. -/
def lowerC (l : List Char) : List Char := l.map Char.toLower

/-- Test `startsW p l`: `l` begins with `p` (Go `strings.HasPrefix`). -/
def startsW (p l : List Char) : Bool := decide (l.take p.length = p)

/-- Test `endsW s l`: `l` ends with `s` (Go `strings.HasSuffix`). -/
def endsW (s l : List Char) : Bool := startsW s.reverse l.reverse

/-! ## SSE normalizer

Modelled from the spec: the repository contains only the unit tests of the
`responsesSSEWriteState` normalizer (`openai_responses_handlers_test.go`);
the state and the transition rules below follow §3 ("SSE normalizer state")
and §4.1 of the design document (event-only buffering, empty-data filtering,
block separation, trailing-newline handling, explicit delimiter, writeDone
gating).  Output is modelled as the byte sequence appended to the writer. -/

structure responsesSSEWriteState where
  pending : List (List Char)
  blockOpen : Bool
  sawData : Bool
  atBoundary : Bool
deriving DecidableEq, Repr

/-- Initial normalizer state (Go zero value). -/
def sseInit : responsesSSEWriteState :=
  { pending := [], blockOpen := false, sawData := false, atBoundary := false }

/-- The block terminator / separator: one blank line. -/
def nl2 : List Char := ['\n', '\n']

/-- The `data:` field marker. -/
def dataMark : List Char := ['d', 'a', 't', 'a', ':']

/-- Does the line carry a `data:` field? -/
def isDataLine (l : List Char) : Bool := startsW dataMark l

/-- Payload of a `data:` line (everything after the marker). -/
def dataPayload (l : List Char) : List Char := l.drop 5

/-- Join lines of one block with single newlines (no terminator). -/
def joinLines : List (List Char) → List Char
  | [] => []
  | [l] => l
  | l :: ls => l ++ '\n' :: joinLines ls

/-- One logical SSE line enters the normalizer.  Returns the successor state
and the bytes written for this line. -/
def processLine (st : responsesSSEWriteState) (line : List Char) :
    responsesSSEWriteState × List Char :=
  if line = [] then
    -- blank line: explicit block delimiter (spec §4.1 rules 4, 5, 8)
    if st.blockOpen then
      ({ pending := [], blockOpen := false, sawData := st.sawData, atBoundary := true }, nl2)
    else
      ({ st with pending := [] }, [])
  else if isDataLine line then
    if (dataPayload line).all isWS then
      -- empty or whitespace-only data payload: filtered out (rule 3)
      (st, [])
    else if st.pending.isEmpty && st.blockOpen then
      -- continuation data line inside the currently open block
      (st, '\n' :: line)
    else
      -- first data line of a new block: flush buffered event lines (rule 2),
      -- separating from an already-open emitted block (rule 4)
      let sep := if st.sawData && !st.atBoundary then nl2 else []
      ({ pending := [], blockOpen := true, sawData := true, atBoundary := false },
        sep ++ joinLines (st.pending ++ [line]))
  else
    -- event: line (or other non-data field line): buffered until data arrives
    ({ st with pending := st.pending ++ [line] }, [])

/-- Split a character list on a separator character (Go `bytes.Split` /
`strings.Split`). -/
def splitOn (sep : Char) : List Char → List (List Char)
  | [] => [[]]
  | c :: cs =>
    match splitOn sep cs with
    | [] => [[c]]
    | l :: ls => if c = sep then [] :: l :: ls else (c :: l) :: ls

/-- Split a chunk on `'\n'`. -/
def splitLines (l : List Char) : List (List Char) := splitOn '\n' l

/-- Logical lines of one `writeChunk` call: a trailing empty segment produced
by a chunk that ends in `'\n'` is discarded, not treated as a delimiter
(spec §4.1 rule 7). -/
def chunkLines (chunk : List Char) : List (List Char) :=
  if chunk.getLast? = some '\n' then (splitLines chunk).dropLast else splitLines chunk

/-- Feed a list of logical lines through the normalizer. -/
def processLines (st : responsesSSEWriteState) :
    List (List Char) → responsesSSEWriteState × List Char
  | [] => (st, [])
  | l :: ls =>
    let p := processLine st l
    let q := processLines p.1 ls
    (q.1, p.2 ++ q.2)

/-- Method `writeChunk`: split the chunk into lines and process them. -/
def writeChunk (st : responsesSSEWriteState) (chunk : List Char) :
    responsesSSEWriteState × List Char :=
  processLines st (chunkLines chunk)

/-- Method `writeDone`: trailing blank line iff a non-empty data block was emitted
and the stream is not already at a block boundary (spec §4.1 rule 5). -/
def writeDone (st : responsesSSEWriteState) : List Char :=
  if st.sawData && !st.atBoundary then nl2 else []

/-- Run a whole sequence of `writeChunk` calls. -/
def runChunks (st : responsesSSEWriteState) :
    List (List Char) → responsesSSEWriteState × List Char
  | [] => (st, [])
  | c :: cs =>
    let p := writeChunk st c
    let q := runChunks p.1 cs
    (q.1, p.2 ++ q.2)

/-- Total output of `writeChunk*; writeDone`. -/
def sseOutput (chunks : List (List Char)) : List Char :=
  (runChunks sseInit chunks).2 ++ writeDone (runChunks sseInit chunks).1

/-- A line that actually carries data: a `data:` line with a payload that is
not whitespace-only. -/
def nonEmptyDataLine (l : List Char) : Bool :=
  isDataLine l && !((dataPayload l).all isWS)

/-! ### Well-formedness vocabulary for the normalizer output -/

/-- A well-formed emitted line: non-empty and newline-free. -/
def goodLine (l : List Char) : Bool := !(l.isEmpty) && !(l.contains '\n')

/-- A well-formed emitted block: non-empty list of good lines. -/
def goodBlock (b : List (List Char)) : Bool := !(b.isEmpty) && b.all goodLine

/-- A well-formed block sequence. -/
def goodBlocks (bs : List (List (List Char))) : Bool := bs.all goodBlock

/-- Render a sequence of blocks: each block is its lines joined by single
newlines, terminated by exactly one blank line. -/
def renderBlocks : List (List (List Char)) → List Char
  | [] => []
  | b :: bs => joinLines b ++ nl2 ++ renderBlocks bs

/-- Newline-run scanner: `findT r l` is true iff `l`, entered with `r`
pending consecutive newlines, contains a run of three newlines.  A run of
three newlines is exactly what two consecutive `"\n\n"` separators (or a
terminator longer than one blank line) would create. -/
def findT (r : Nat) : List Char → Bool
  | [] => false
  | c :: cs => if c = '\n' then (if 2 ≤ r then true else findT (r + 1) cs) else findT 0 cs

/-- Trailing newline-run length, entered with `r` pending newlines. -/
def runE (r : Nat) : List Char → Nat
  | [] => r
  | c :: cs => runE (if c = '\n' then r + 1 else 0) cs

/-- Does the byte sequence end with a blank line (`"\n\n"`)? -/
def endsBlank (l : List Char) : Bool :=
  match l.reverse with
  | c1 :: c2 :: _ => c1 = '\n' && c2 = '\n'
  | _ => false

/-- Invariant tying the normalizer state to the bytes emitted so far: either
nothing was emitted, or the output is a sequence of closed well-formed blocks
possibly followed by one open (unterminated) block. -/
def sseInv (st : responsesSSEWriteState) (out : List Char) : Prop :=
  st.pending.all goodLine = true ∧
  ((st.sawData = false ∧ st.blockOpen = false ∧ st.atBoundary = false ∧ out = []) ∨
   (st.sawData = true ∧ st.blockOpen = true ∧ st.atBoundary = false ∧
     ∃ closed opn, goodBlocks closed = true ∧ goodBlock opn = true ∧
       out = renderBlocks closed ++ joinLines opn) ∨
   (st.sawData = true ∧ st.blockOpen = false ∧ st.atBoundary = true ∧
     ∃ closed, goodBlocks closed = true ∧ closed ≠ [] ∧ out = renderBlocks closed))

/-- Concrete chunk sequence of spec scenario S1: an empty chunk, then an
event line with no data. -/
def s1Chunks : List (List Char) := [("".data), ("event: x".data)]

/-- Logical line stream of a whole sequence of `writeChunk` calls: the
concatenation of each chunk's logical lines, in call order. -/
def streamLines : List (List Char) → List (List Char)
  | [] => []
  | c :: cs => chunkLines c ++ streamLines cs

/-- A chunk holding exactly one explicit block delimiter: a single newline,
whose logical line list is one blank line. -/
def delimChunk : List Char := ['\n']

/-- Mixed-stream witness data for event-only suppression: a chunk emitting a
closed data block. -/
def c1Pre : List (List Char) := [("data: a\n\n".data)]

/-- Mixed-stream witness data: an event-only block delivered as one chunk,
event line plus delimiter. -/
def c1Mid : List (List Char) := [("event: x\n\n".data)]

/-- Mixed-stream witness data: a later data block after the event-only
block. -/
def c1Post : List (List Char) := [("data: b\n".data)]

/-- Mixed-stream witness data: an unterminated event-only tail, an event
line then a whitespace-only `data:` line, with no delimiter before
`writeDone`. -/
def c1Tail : List (List Char) := [("event: y".data), ("data:   ".data)]

/-- Logical lines of the witness event-only block `c1Mid` (before its
delimiter). -/
def c1B : List (List Char) := [("event: x".data)]

/-- Logical lines of the witness event-only tail `c1Tail`. -/
def c1C : List (List Char) := [("event: y".data), ("data:   ".data)]

/-! ## Dynamic JSON values

The executors poke fields into raw JSON payloads with a path-query library;
following §9 of the design document, JSON is modelled as a generic tree and
the payload of a request as the field list of its top-level object. -/

inductive Json where
  | null
  | bool (b : Bool)
  | num (n : Int)
  | str (s : List Char)
  | arr (xs : List Json)
  | obj (fields : List (List Char × Json))

/-- Set a top-level field of a JSON object, overwriting an existing value. -/
def setField : List (List Char × Json) → List Char → Json → List (List Char × Json)
  | [], k, v => [(k, v)]
  | (k', v') :: fs, k, v =>
    if k' = k then (k, v) :: fs else (k', v') :: setField fs k v

/-- Read a top-level field of a JSON object. -/
def getField : List (List Char × Json) → List Char → Option Json
  | [], _ => none
  | (k', v') :: fs, k => if k' = k then some v' else getField fs k

/-- Read a top-level string field. -/
def getStrField (fields : List (List Char × Json)) (k : List Char) : Option (List Char) :=
  match getField fields k with
  | some (Json.str s) => some s
  | _ => none

/-- Read a top-level boolean field. -/
def getBoolField (fields : List (List Char × Json)) (k : List Char) : Option Bool :=
  match getField fields k with
  | some (Json.bool b) => some b
  | _ => none

def modelKey : List Char := ("model".data)
def reasoningKey : List Char := ("reasoning".data)
def effortKey : List Char := ("effort".data)
def streamKey : List Char := ("stream".data)

/-- Set the `reasoning.effort` path, creating the intermediate object when it
is missing or not an object (sjson path-set semantics). -/
def setReasoningEffortPath (fields : List (List Char × Json)) (v : Json) :
    List (List Char × Json) :=
  match getField fields reasoningKey with
  | some (Json.obj inner) => setField fields reasoningKey (Json.obj (setField inner effortKey v))
  | _ => setField fields reasoningKey (Json.obj [(effortKey, v)])

/-- Read the `reasoning.effort` path. -/
def getReasoningEffort (fields : List (List Char × Json)) : Option (List Char) :=
  match getField fields reasoningKey with
  | some (Json.obj inner) => getStrField inner effortKey
  | _ => none

/-! ## Codex alias resolution and upstream body construction

Modelled from the spec: the repository contains only the tests of
`resolveCodexAlias`, `setReasoningEffortByAlias` and the codex executor's
`Execute`; the definitions follow §4.6 and §4.7 of the design document
(alias grammar `<base>-<effort>`, greedy-longest base, effort lowercased and
trimmed and dropped when empty, upstream `stream` always forced to true for
alias requests). -/

/-- The recognized reasoning efforts. -/
def codexEfforts : List (List Char) :=
  [("none".data), ("minimal".data), ("low".data),
   ("medium".data), ("high".data), ("xhigh".data)]

/-- The recognized base models, longest first so that the resolver prefers
the longest base that leaves a recognized effort suffix. -/
def codexBases : List (List Char) :=
  [("gpt-5.3-codex-spark".data), ("gpt-5.1-codex-max".data),
   ("gpt-5.1-codex".data), ("gpt-5.2-codex".data), ("gpt-5-codex".data),
   ("gpt-5.1".data), ("gpt-5.2".data), ("gpt-5".data)]

/-- Try one base: succeeds iff `name = base ++ "-" ++ effort` with a
recognized effort. -/
def tryCodexBase (name base : List Char) : Option (List Char × List Char) :=
  if startsW (base ++ ['-']) name && codexEfforts.contains (name.drop (base.length + 1)) then
    some (base, name.drop (base.length + 1))
  else none

/-- Resolver: `resolveCodexAlias name = some (baseModel, effort)` iff `name` is a
recognized codex alias; a bare base name is not an alias. -/
def resolveCodexAlias (name : List Char) : Option (List Char × List Char) :=
  codexBases.findSome? (tryCodexBase name)

/-- Overwrite the payload's `model` with the base model and set
`reasoning.effort` to the lowercased, trimmed effort (skipped when the
trimmed effort is empty). -/
def setReasoningEffortByAlias (payload : List (List Char × Json))
    (baseModel effort : List Char) : List (List Char × Json) :=
  let p1 := setField payload modelKey (Json.str baseModel)
  let e := lowerC (trimC effort)
  if e.isEmpty then p1 else setReasoningEffortPath p1 (Json.str e)

/-- Upstream body built by the codex executor for a request: for a recognized
alias, rewrite model / reasoning.effort and force `stream = true` regardless
of the client's `Stream` flag. -/
def codexUpstreamBody (model : List Char) (payload : List (List Char × Json))
    (_clientStream : Bool) : List (List Char × Json) :=
  match resolveCodexAlias model with
  | some be => setField (setReasoningEffortByAlias payload be.1 be.2) streamKey (Json.bool true)
  | none => payload

/-! ## Auth records -/

/-- An auth record: `{ID, Provider, Attributes, ProxyURL}` (design §3;
status and token fields are not needed by the claims). -/
structure Auth where
  id : List Char
  provider : List Char
  attributes : List (List Char × List Char)
  proxyURL : List Char
deriving DecidableEq

/-- Look up an attribute by key. -/
def attrLookup : List (List Char × List Char) → List Char → Option (List Char)
  | [], _ => none
  | (k', v) :: rest, k => if k' = k then some v else attrLookup rest k

/-! ## Model registry and the chutes fallback-priority pass

Modelled from the spec: the repository contains only the tests of
`applyChutesModelPriority` (`service_chutes_priority_test.go`,
`chutes_priority_hook_test.go`); the filtering pass follows §4.3 of the
design document: for every auth record of the fallback provider whose
`priority` attribute is `fallback`, keep a model `m` of its registry entry
iff `m` starts with the fallback prefix or `m` is not advertised by any
non-fallback provider, and replace the entry via a RegisterClient call. -/

/-- One registry entry: the provider of the client and its advertised models
(models are identified by their ID). -/
structure RegistryEntry where
  provider : List Char
  models : List (List Char)
deriving DecidableEq

/-- The registry: clientID to entry. -/
abbrev Registry := List (List Char × RegistryEntry)

/-- Look up the entry of a client. -/
def regLookup : Registry → List Char → Option RegistryEntry
  | [], _ => none
  | (id', e) :: rest, id => if id' = id then some e else regLookup rest id

/-- Registry `RegisterClient`: atomically replace (or add) the entry for a client. -/
def registerClient : Registry → List Char → List Char → List (List Char) → Registry
  | [], id, provider, models => [(id, { provider := provider, models := models })]
  | (id', e) :: rest, id, provider, models =>
    if id' = id then (id, { provider := provider, models := models }) :: rest
    else (id', e) :: registerClient rest id provider models

def chutesStr : List Char := ("chutes".data)

/-- The fallback prefix `registry.ChutesModelPrefix`. -/
def ChutesModelPrefix : List Char := ("chutes-".data)

def priorityKey : List Char := ("priority".data)
def fallbackStr : List Char := ("fallback".data)

/-- The bare model IDs advertised by any non-fallback provider. -/
def nonChutesModelIDs : Registry → List (List Char)
  | [] => []
  | (_, e) :: rest =>
    if e.provider = chutesStr then nonChutesModelIDs rest
    else e.models ++ nonChutesModelIDs rest

/-- Keep a model iff it starts with the fallback prefix or no non-fallback
provider advertises it. -/
def keepChutesModel (pool : List (List Char)) (m : List Char) : Bool :=
  startsW ChutesModelPrefix m || !(pool.contains m)

/-- Is this auth record a fallback-priority record of the fallback
provider? -/
def chutesFallback (a : Auth) : Bool :=
  a.provider = chutesStr && attrLookup a.attributes priorityKey = some fallbackStr

/-- Filtering pass for one auth record. -/
def applyChutesStep (reg : Registry) (a : Auth) : Registry :=
  if chutesFallback a then
    match regLookup reg a.id with
    | some entry =>
      registerClient reg a.id chutesStr
        (entry.models.filter (keepChutesModel (nonChutesModelIDs reg)))
    | none => reg
  else reg

/-- Pass `applyChutesModelPriority`: run the filtering pass over every auth
record known to the auth manager. -/
def applyChutesModelPriority (auths : List Auth) (reg : Registry) : Registry :=
  auths.foldl applyChutesStep reg

/-- Registry sanity assumption: a registry entry whose client ID belongs to
an auth record of the fallback provider is itself registered under the
fallback provider. -/
abbrev chutesIdsOnly (auths : List Auth) (reg : Registry) : Prop :=
  ∀ b ∈ auths, b.provider = chutesStr →
    ∀ e ∈ reg, e.1 = b.id → e.2.provider = chutesStr

/-! ## Transport cache (`newProxyAwareHTTPClient`)

Embedded from the executor source.  Transports are modelled by identities
(`Option Nat`): `none` is a nil transport (net/http default transport), and
`some i` an allocated transport object or a context round-tripper; equality
of identities models Go reference equality. -/

/-- An `http.Client`: a transport reference and a timeout (0 = none). -/
structure HTTPClient where
  transport : Option Nat
  timeout : Nat
deriving DecidableEq

/-- The process-wide client cache plus an allocator for fresh transport
identities. -/
structure ClientCache where
  entries : List (List Char × HTTPClient)
  nextId : Nat
deriving DecidableEq

/-- Cache lookup by proxy-URL key. -/
def cacheLookup : List (List Char × HTTPClient) → List Char → Option HTTPClient
  | [], _ => none
  | (k', c) :: rest, k => if k' = k then some c else cacheLookup rest k

/-- SDK configuration: outbound proxy URL and per-service allowlist (stored
lowercased and trimmed by the loader). -/
structure SDKConfig where
  proxyURL : List Char
  proxyServices : List (List Char)
deriving DecidableEq

/-- Modelled from the spec: `ProxyEnabledFor` (its body is not under the
sources shipped here) returns true when the allowlist is empty or contains
the service, case-insensitively and whitespace-trimmed (design §4.8). -/
def ProxyEnabledFor (cfg : SDKConfig) (service : List Char) : Bool :=
  cfg.proxyServices.isEmpty || cfg.proxyServices.contains (lowerC (trimC service))

/-- Does `buildProxyTransport` accept the proxy URL?  It builds a transport
exactly for the `socks5://`, `http://` and `https://` schemes. -/
def validProxyScheme (u : List Char) : Bool :=
  startsW ("socks5://".data) u || startsW ("http://".data) u || startsW ("https://".data) u

/-- The effective proxy URL of a call: `auth.ProxyURL` first, then the
config proxy when the allowlist enables it for the service. -/
def effectiveProxyURL (cfg : SDKConfig) (auth : Option Auth) (service : List Char) :
    List Char :=
  let authProxy := match auth with
    | some a => trimC a.proxyURL
    | none => []
  if !authProxy.isEmpty then authProxy
  else if ProxyEnabledFor cfg service then trimC cfg.proxyURL
  else []

/-- Constructor `newProxyAwareHTTPClient`: returns the client for this call and the
updated cache.  `ctxRT` is the optional round-tripper carried by the
context. -/
def newProxyAwareHTTPClient (cache : ClientCache) (ctxRT : Option Nat)
    (cfg : SDKConfig) (auth : Option Auth) (timeout : Nat) (service : List Char) :
    HTTPClient × ClientCache :=
  match cacheLookup cache.entries (effectiveProxyURL cfg auth service) with
  | some cached =>
    -- cache hit: cached clients are stored with Timeout = 0; a non-zero
    -- timeout gets a per-call wrapper sharing the cached transport
    if 0 < timeout then ({ transport := cached.transport, timeout := timeout }, cache)
    else (cached, cache)
  | none =>
    if !(effectiveProxyURL cfg auth service).isEmpty &&
        validProxyScheme (effectiveProxyURL cfg auth service) then
      -- build a proxy transport, cache the base client with Timeout = 0
      (if 0 < timeout then { transport := some cache.nextId, timeout := timeout }
       else { transport := some cache.nextId, timeout := 0 },
       { entries := (effectiveProxyURL cfg auth service,
           ({ transport := some cache.nextId, timeout := 0 } : HTTPClient)) :: cache.entries,
         nextId := cache.nextId + 1 })
    else
      -- invalid or no proxy: fall through to the context round-tripper;
      -- cache only the true no-proxy default-transport client
      (if 0 < timeout then { transport := ctxRT, timeout := timeout }
       else { transport := ctxRT, timeout := 0 },
       if (effectiveProxyURL cfg auth service).isEmpty && ctxRT = none then
         { entries := (effectiveProxyURL cfg auth service,
             ({ transport := ctxRT, timeout := 0 } : HTTPClient)) :: cache.entries,
           nextId := cache.nextId }
       else cache)

/-! ## NO_PROXY bypass (util package) -/

/-- Parse `parseNoProxyList`: comma-separated, lowercased, trimmed, empties
dropped. -/
def parseNoProxyList (raw : List Char) : List (List Char) :=
  ((splitOn ',' (trimC raw)).map (fun p => lowerC (trimC p))).filter (fun p => !p.isEmpty)

/-- Model of `net.SplitHostPort` restricted to the unbracketed `host:port` form:
exactly one colon with a non-empty host (bracketed IPv6 literals are not
modelled).  Returns the host part. -/
def splitHostPort (hostport : List Char) : Option (List Char) :=
  match splitOn ':' hostport with
  | [h, _] => if h.isEmpty then none else some h
  | _ => none

/-- The host a dial address is compared against: lowercase, trim, strip the
port when the address has the `host:port` form. -/
def bypassHostOf (addr : List Char) : List Char :=
  match splitHostPort (lowerC (trimC addr)) with
  | some h => h
  | none => lowerC (trimC addr)

/-- Predicate `shouldBypassProxy` from the util sources: normalize the host, strip a
port when present, and test the patterns in order (`*`; exact; leading-dot
suffix; bare-host subdomain suffix). -/
def shouldBypassProxy (host : List Char) (patterns : List (List Char)) : Bool :=
  if (lowerC (trimC host)).isEmpty || patterns.isEmpty then false
  else
    patterns.any (fun p =>
      p = ['*'] || bypassHostOf host = p ||
      (startsW ['.'] p && endsW p (bypassHostOf host)) ||
      (!(startsW ['.'] p) && endsW ('.' :: p) (bypassHostOf host)))

/-- Dial decision of the SOCKS5 transport built by `SetProxyForService`
(util): true means the direct dialer is used for this address. -/
def utilSocksDialsDirect (noProxyList : List (List Char)) (addr : List Char) : Bool :=
  shouldBypassProxy addr noProxyList

/-- Proxy-function decision of the HTTP/HTTPS transport built by
`SetProxyForService` (util): `none` means a nil proxy URL, i.e. a direct
connection. -/
def utilHttpProxyChoice (noProxyList : List (List Char)) (proxyURL hostname : List Char) :
    Option (List Char) :=
  if shouldBypassProxy hostname noProxyList then none else some proxyURL

/-- Dial decision of the SOCKS5 transport built by the executor's
`buildProxyTransport`: its `DialContext` always uses the SOCKS5 dialer, so
the direct dialer is never chosen. -/
def executorSocksDialsDirect (_addr : List Char) : Bool := false

/-- Proxy-function decision of the HTTP/HTTPS transport built by the
executor's `buildProxyTransport` (`http.ProxyURL`): always the proxy. -/
def executorHttpProxyChoice (proxyURL _hostname : List Char) : Option (List Char) :=
  some proxyURL

/-- The claim's own wording of a NO_PROXY pattern match, stated over the
normalized host: `*` matches all, a leading-dot pattern matches host
suffixes, a bare pattern matches the host itself and any subdomain of it. -/
def specNoProxyMatches (p host : List Char) : Bool :=
  p = ['*'] ||
  (startsW ['.'] p && endsW p host) ||
  (!(startsW ['.'] p) && (host = p || endsW ('.' :: p) host))

/-! ## Electron subprocess shim: retry policy (copilot_electron_shim.js) -/

/-- Uppercase every character (`String.prototype.toUpperCase` on ASCII). -/
def upperC (l : List Char) : List Char := l.map Char.toUpper

/-- Substring test (`String.prototype.includes`). -/
def containsSeq (needle : List Char) : List Char → Bool
  | [] => needle.isEmpty
  | c :: cs => startsW needle (c :: cs) || containsSeq needle cs

/-- The retryable Chromium network error codes. -/
def retryableCodes : List (List Char) :=
  [("ERR_CONNECTION_CLOSED".data), ("ERR_CONNECTION_RESET".data),
   ("ERR_TIMED_OUT".data), ("ERR_NETWORK_CHANGED".data),
   ("ERR_TUNNEL_CONNECTION_FAILED".data), ("ERR_INCOMPLETE_CHUNKED_ENCODING".data),
   ("ERR_HTTP2_PROTOCOL_ERROR".data)]

/-- Predicate `isRetryableElectronError`: the uppercased message contains one of the
retryable codes. -/
def isRetryableElectronError (msg : List Char) : Bool :=
  retryableCodes.any (fun c => containsSeq c (upperC msg))

/-- Digit string to number. -/
def digitsToNat (ds : List Char) : Nat :=
  ds.foldl (fun acc c => acc * 10 + (c.toNat - 48)) 0

/-- Simplified `Number.parseInt`: an optional sign followed by digits. -/
def parseIntSimple (s : List Char) : Option Int :=
  match s with
  | [] => none
  | '-' :: ds =>
    if !ds.isEmpty && ds.all (fun c => c.isDigit) then some (-(digitsToNat ds : Int)) else none
  | ds => if ds.all (fun c => c.isDigit) then some ((digitsToNat ds : Int)) else none

/-- Resolution of `env || "2"`: the raw value of `COPILOT_ELECTRON_MAX_ATTEMPTS`, an
absent or empty variable falling back to `"2"`. -/
def envOrDefault (env : Option (List Char)) : List Char :=
  match env with
  | some s => if s.isEmpty then ("2".data) else s
  | none => ("2".data)

/-- Variable `COPILOT_ELECTRON_MAX_ATTEMPTS` resolution: `parseInt(env || "2")`,
falling back to 2 unless the parse yields a finite positive number. -/
def parseMaxAttempts (env : Option (List Char)) : Nat :=
  match parseIntSimple (envOrDefault env) with
  | some n => if 0 < n then n.toNat else 2
  | none => 2

/-- The fate of one request attempt, as observed by the shim's event
handlers: either the request errors before any response headers arrive, or a
response arrives (headers, then chunks written to stdout, then a clean end
or a post-headers failure). -/
inductive AttemptOutcome where
  | errorBeforeHeaders (msg : List Char)
  | response (chunks : List (List Char)) (cleanEnd : Bool)
deriving DecidableEq

/-- Result of a shim run: attempts started, body chunks emitted to stdout,
the backoff waited before each retry, and whether the stream ended cleanly. -/
structure ShimRun where
  attemptsMade : Nat
  emitted : List (List Char)
  backoffs : List Nat
  ok : Bool
deriving DecidableEq

/-- The `makeAttempt` loop: a pre-headers error retries iff it is retryable
and the attempt count is below `maxAttempts`, with backoff
`min(1000, 250 × attempt)`; a response (headers observed) is terminal.
`prior` is the number of attempts already made; the returned counts are the
attempts made and backoffs waited from this point on. -/
def runShimAux (maxAttempts : Nat) : Nat → List AttemptOutcome → ShimRun
  | _, [] => { attemptsMade := 0, emitted := [], backoffs := [], ok := false }
  | prior, o :: rest =>
    match o with
    | AttemptOutcome.errorBeforeHeaders msg =>
      if isRetryableElectronError msg && decide (prior + 1 < maxAttempts) then
        { attemptsMade := (runShimAux maxAttempts (prior + 1) rest).attemptsMade + 1,
          emitted := (runShimAux maxAttempts (prior + 1) rest).emitted,
          backoffs := min 1000 (250 * (prior + 1)) ::
            (runShimAux maxAttempts (prior + 1) rest).backoffs,
          ok := (runShimAux maxAttempts (prior + 1) rest).ok }
      else { attemptsMade := 1, emitted := [], backoffs := [], ok := false }
    | AttemptOutcome.response chunks cleanEnd =>
      { attemptsMade := 1, emitted := chunks, backoffs := [], ok := cleanEnd }

/-- Run the shim on the outcome sequence of its attempts. -/
def runShim (maxAttempts : Nat) (outcomes : List AttemptOutcome) : ShimRun :=
  runShimAux maxAttempts 0 outcomes

/-! ## Codex prompt-cache-key helper

Modelled from the spec: the repository contains only the test of
`cacheHelper` (`TestCodexCacheHelper_ClaudePromptCacheKeyDeterministic`);
per §4.6 of the design document the helper builds the stable key
`"{Model}-{userId}"`, writes it into the upstream body's
`prompt_cache_key` field and echoes it in the `Session_id` and
`Conversation_id` request headers; an in-process cache records seen keys but
does not influence the key. -/

def promptCacheKeyKey : List Char := ("prompt_cache_key".data)

/-- The stable prompt cache key. -/
def codexCacheKey (model userId : List Char) : List Char :=
  model ++ '-' :: userId

/-- Outcome of `cacheHelper` relevant to the claims: the upstream body
fields and the two echoed headers. -/
structure CacheHelperResult where
  bodyFields : List (List Char × Json)
  sessionId : List Char
  conversationId : List Char

/-- Helper `cacheHelper`: build the key, set it in the body, echo it in both
headers, and record it in the in-process cache. -/
def cacheHelper (codexCache : List (List Char)) (model userId : List Char)
    (raw : List (List Char × Json)) : CacheHelperResult × List (List Char) :=
  let key := codexCacheKey model userId
  ({ bodyFields := setField raw promptCacheKeyKey (Json.str key),
     sessionId := key, conversationId := key },
   if codexCache.contains key then codexCache else key :: codexCache)

/-- Eviction `deleteCodexCache`: drop a key from the in-process cache (used by the
test to simulate eviction / process restart). -/
def deleteCodexCache (key : List Char) (codexCache : List (List Char)) :
    List (List Char) :=
  codexCache.filter (fun k => !(k = key))

/-! ## AtomicWriteFile (internal/util/util.go)

The file system is modelled as an association list from path to file entry;
each fallible step can be made to fail through a fault vector, and the
sequence of operations attempted is returned as a trace. -/

/-- A file: contents and permission bits. -/
structure FileEntry where
  content : List Char
  perm : Nat
deriving DecidableEq

/-- A flat file system. -/
abbrev FS := List (List Char × FileEntry)

def fsLookup : FS → List Char → Option FileEntry
  | [], _ => none
  | (p, e) :: rest, q => if p = q then some e else fsLookup rest q

def fsErase : FS → List Char → FS
  | [], _ => []
  | (p, e) :: rest, q => if p = q then fsErase rest q else (p, e) :: fsErase rest q

def fsInsert (fs : FS) (p : List Char) (e : FileEntry) : FS :=
  (p, e) :: fsErase fs p

/-- Fault injection: which step of `AtomicWriteFile` fails. -/
structure WriteFaults where
  mkdirFails : Bool
  createFails : Bool
  chmodFails : Bool
  writeFails : Bool
  syncFails : Bool
  closeFails : Bool
  removeFails : Bool
  renameFails : Bool
deriving DecidableEq

/-- The fault vector with no failures. -/
def noFaults : WriteFaults :=
  { mkdirFails := false, createFails := false, chmodFails := false,
    writeFails := false, syncFails := false, closeFails := false,
    removeFails := false, renameFails := false }

/-- Operations `AtomicWriteFile` performs, in order. -/
inductive FileOp where
  | mkdirAll
  | createTemp
  | chmod
  | write
  | sync
  | close
  | removeDest
  | rename
deriving DecidableEq

def msgMkdir : List Char := ("atomic write: create directory failed".data)
def msgCreate : List Char := ("atomic write: create temp file failed".data)
def msgChmod : List Char := ("atomic write: chmod temp file failed".data)
def msgWrite : List Char := ("atomic write: write temp file failed".data)
def msgSync : List Char := ("atomic write: sync temp file failed".data)
def msgClose : List Char := ("atomic write: close temp file failed".data)
def msgRemove : List Char := ("atomic write: remove existing file failed".data)
def msgRename : List Char := ("atomic write: rename failed".data)

/-- Function `AtomicWriteFile path data perm`: temp file in the same directory
(`tmpPath` stands for the generated temp name), chmod, write, sync, close,
unconditional remove of the destination (ignoring not-exist), rename.  On
any error the deferred cleanup removes the temp file.  Returns the result,
the final file system, and the operation trace. -/
def AtomicWriteFile (fs : FS) (path : List Char) (data : List Char) (perm : Nat)
    (tmpPath : List Char) (f : WriteFaults) :
    Except (List Char) Unit × FS × List FileOp :=
  let ops1 := [FileOp.mkdirAll]
  if f.mkdirFails then (Except.error msgMkdir, fs, ops1)
  else
    let ops2 := ops1 ++ [FileOp.createTemp]
    if f.createFails then (Except.error msgCreate, fs, ops2)
    else
      let fs1 := fsInsert fs tmpPath { content := [], perm := 384 }
      let ops3 := ops2 ++ [FileOp.chmod]
      if f.chmodFails then (Except.error msgChmod, fsErase fs1 tmpPath, ops3)
      else
        let fs2 := fsInsert fs1 tmpPath { content := [], perm := perm }
        let ops4 := ops3 ++ [FileOp.write]
        if f.writeFails then (Except.error msgWrite, fsErase fs2 tmpPath, ops4)
        else
          let fs3 := fsInsert fs2 tmpPath { content := data, perm := perm }
          let ops5 := ops4 ++ [FileOp.sync]
          if f.syncFails then (Except.error msgSync, fsErase fs3 tmpPath, ops5)
          else
            let ops6 := ops5 ++ [FileOp.close]
            if f.closeFails then (Except.error msgClose, fsErase fs3 tmpPath, ops6)
            else
              let ops7 := ops6 ++ [FileOp.removeDest]
              if f.removeFails && (fsLookup fs3 path).isSome then
                (Except.error msgRemove, fsErase fs3 tmpPath, ops7)
              else
                let fs4 := fsErase fs3 path
                let ops8 := ops7 ++ [FileOp.rename]
                if f.renameFails then (Except.error msgRename, fsErase fs4 tmpPath, ops8)
                else
                  (Except.ok (), fsInsert (fsErase fs4 tmpPath) path
                    { content := data, perm := perm }, ops8)

/-- Is the result an error? -/
def exceptIsError : Except (List Char) Unit → Bool
  | Except.error _ => true
  | Except.ok _ => false

/-! ### Concrete inputs used by the witnesses -/

/-- Scenario S4: the alias request model name. -/
def c3Name : List Char := ("gpt-5.1-codex-max-xhigh".data)

def c3Base : List Char := ("gpt-5.1-codex-max".data)

def c3Eff : List Char := ("xhigh".data)

/-- Scenario S4 payload: the object with an empty `input` array. -/
def c3Payload : List (List Char × Json) := [(("input".data), Json.arr [])]

/-- Concrete destination path for the `AtomicWriteFile` analysis. -/
def c9Path : List Char := ("auths/codex.json".data)

/-- Concrete generated temp-file path (same directory as the destination). -/
def c9Tmp : List Char := ("auths/.tmp-1".data)

/-- The destination's previous contents. -/
def c9Old : FileEntry := { content := ("old".data), perm := 384 }

/-- A file system in which the destination already exists. -/
def c9FS : FS := [(c9Path, c9Old)]

/-- The new data to write. -/
def c9Data : List Char := ("new".data)

/-- Fault vector: only the final rename fails. -/
def c9RenameFault : WriteFaults := { noFaults with renameFails := true }

/-- Fault vector: only the temp-file write fails. -/
def c9WriteFault : WriteFaults := { noFaults with writeFails := true }

/-- An empty transport cache. -/
def c5Cache0 : ClientCache := { entries := [], nextId := 0 }

/-- A configuration with no outbound proxy. -/
def c5Cfg : SDKConfig := { proxyURL := [], proxyServices := [] }

def c5Svc : List Char := ("codex".data)

/-- An auth record with its own SOCKS5 proxy. -/
def c5Auth : Auth :=
  { id := ("codex-auth-1".data), provider := ("codex".data), attributes := [],
    proxyURL := ("socks5://proxy.example:1080".data) }

/-- A NO_PROXY value with a single bare host pattern. -/
def c6Raw : List Char := ("example.com".data)

/-- A dial address whose host matches that pattern exactly. -/
def c6Addr : List Char := ("example.com:443".data)

def c6Host : List Char := ("example.com".data)

def c6Proxy : List Char := ("http://proxy.example:3128".data)

/-- A NO_PROXY value with a leading-dot pattern and an untrimmed,
mixed-case bare pattern. -/
def c6WitRaw : List Char := (".internal.example, Foo.COM ,".data)

/-- A dial address matching `Foo.COM` as a subdomain. -/
def c6WitAddr : List Char := ("api.foo.com:443".data)

/-- A shim run: one retryable pre-headers connection reset, then a clean
response. -/
def c7Demo : List AttemptOutcome :=
  [AttemptOutcome.errorBeforeHeaders ("net::ERR_CONNECTION_RESET".data),
   AttemptOutcome.response [("data: ok".data)] true]

/-! ### Scenario S5 inputs (priority filter) -/

def c4OpenaiId : List Char := ("openai-1".data)

def c4ChutesId : List Char := ("chutes-1".data)

def c4M1 : List Char := ("gpt-4o".data)

def c4M2 : List Char := ("chutes-gpt-4o".data)

def c4M3 : List Char := ("only-chutes-model".data)

def c4M4 : List Char := ("chutes-only-chutes-model".data)

/-- The S5 registry: `openai-1 → [gpt-4o]` and
`chutes-1 → [gpt-4o, chutes-gpt-4o, only-chutes-model,
chutes-only-chutes-model]`. -/
def c4Reg : Registry :=
  [(c4OpenaiId, { provider := ("openai".data), models := [c4M1] }),
   (c4ChutesId, { provider := chutesStr, models := [c4M1, c4M2, c4M3, c4M4] })]

/-- The S5 fallback auth record. -/
def c4Auth : Auth :=
  { id := c4ChutesId, provider := chutesStr,
    attributes := [(priorityKey, fallbackStr)], proxyURL := [] }

def c4Auths : List Auth := [c4Auth]

def c4Entry : RegistryEntry :=
  { provider := chutesStr, models := [c4M1, c4M2, c4M3, c4M4] }

/-- The models S5 expects to survive the filter. -/
def c4Expected : List (List Char) := [c4M2, c4M3, c4M4]

/-- A state that has emitted nothing yet: all three flags are clear. -/
def quietState (st : responsesSSEWriteState) : Prop :=
  st.blockOpen = false ∧ st.sawData = false ∧ st.atBoundary = false

/-! ## Theorems -/

theorem processLine_no_data (st : responsesSSEWriteState) (l : List Char)
    (hl : nonEmptyDataLine l = false) (hq : quietState st) :
    quietState (processLine st l).1 ∧ (processLine st l).2 = [] := by
  obtain ⟨hb, hs, ha⟩ := hq
  unfold processLine
  by_cases h1 : l = []
  · simp [h1, hb, quietState, hs, ha]
  · by_cases h2 : isDataLine l = true
    · have hws : (dataPayload l).all isWS = true := by
        unfold nonEmptyDataLine at hl
        rw [h2] at hl
        simpa using hl
      simp [h1, h2, hws, quietState, hb, hs, ha]
    · simp [h1, h2, quietState, hb, hs, ha]

theorem processLines_no_data (st : responsesSSEWriteState) (ls : List (List Char))
    (hl : ∀ l ∈ ls, nonEmptyDataLine l = false) (hq : quietState st) :
    quietState (processLines st ls).1 ∧ (processLines st ls).2 = [] := by
  induction ls generalizing st with
  | nil => simpa [processLines] using hq
  | cons l ls ih =>
    have h1 := processLine_no_data st l (hl l (by simp)) hq
    have h2 := ih (processLine st l).1 (fun x hx => hl x (by simp [hx])) h1.1
    simp [processLines, h1.2, h2.1, h2.2]

theorem runChunks_no_data (st : responsesSSEWriteState) (chunks : List (List Char))
    (hl : ∀ c ∈ chunks, ∀ l ∈ chunkLines c, nonEmptyDataLine l = false)
    (hq : quietState st) :
    quietState (runChunks st chunks).1 ∧ (runChunks st chunks).2 = [] := by
  induction chunks generalizing st with
  | nil => simpa [runChunks] using hq
  | cons c cs ih =>
    have h1 := processLines_no_data st (chunkLines c) (hl c (by simp)) hq
    have h2 := ih (writeChunk st c).1 (fun x hx => hl x (by simp [hx])) (by
      simpa [writeChunk] using h1.1)
    constructor
    · simpa [runChunks] using h2.1
    · simp [runChunks, writeChunk] at h1 h2 ⊢
      exact ⟨h1.2, h2.2⟩

theorem processLines_append (xs ys : List (List Char)) :
    ∀ st, processLines st (xs ++ ys)
      = ((processLines (processLines st xs).1 ys).1,
         (processLines st xs).2 ++ (processLines (processLines st xs).1 ys).2) := by
  induction xs with
  | nil => intro st; simp [processLines]
  | cons x xs ih =>
    intro st
    simp only [List.cons_append, processLines, List.append_eq]
    rw [ih]
    simp [List.append_assoc]

theorem streamLines_append (xs ys : List (List Char)) :
    streamLines (xs ++ ys) = streamLines xs ++ streamLines ys := by
  induction xs with
  | nil => simp [streamLines]
  | cons x xs ih => simp [streamLines, ih, List.append_assoc]

theorem runChunks_lines (cs : List (List Char)) :
    ∀ st, runChunks st cs = processLines st (streamLines cs) := by
  induction cs with
  | nil => intro st; simp [runChunks, streamLines, processLines]
  | cons c cs ih =>
    intro st
    simp only [runChunks, writeChunk, streamLines]
    rw [processLines_append, ih]

theorem processLine_eventOnly (st : responsesSSEWriteState) (l : List Char)
    (hne : l ≠ []) (hd : nonEmptyDataLine l = false) :
    (processLine st l).2 = [] ∧
    (processLine st l).1.blockOpen = st.blockOpen ∧
    (processLine st l).1.sawData = st.sawData ∧
    (processLine st l).1.atBoundary = st.atBoundary := by
  unfold processLine
  by_cases h2 : isDataLine l = true
  · have hws : (dataPayload l).all isWS = true := by
      unfold nonEmptyDataLine at hd
      rw [h2] at hd
      simpa using hd
    simp [hne, h2, hws]
  · simp [hne, h2]

theorem processLines_eventOnly (b : List (List Char)) :
    ∀ st, (∀ l ∈ b, l ≠ [] ∧ nonEmptyDataLine l = false) →
      (processLines st b).2 = [] ∧
      (processLines st b).1.blockOpen = st.blockOpen ∧
      (processLines st b).1.sawData = st.sawData ∧
      (processLines st b).1.atBoundary = st.atBoundary := by
  induction b with
  | nil => intro st _; simp [processLines]
  | cons l ls ih =>
    intro st hb
    have h1 := processLine_eventOnly st l (hb l (by simp)).1 (hb l (by simp)).2
    have h2 := ih (processLine st l).1 (fun x hx => hb x (by simp [hx]))
    simp [processLines, h1.1, h2.1, h2.2.1, h2.2.2.1, h2.2.2.2,
      h1.2.1, h1.2.2.1, h1.2.2.2]

theorem processLine_blank_congr (st st' : responsesSSEWriteState)
    (h1 : st'.blockOpen = st.blockOpen) (h2 : st'.sawData = st.sawData)
    (h3 : st'.atBoundary = st.atBoundary) :
    processLine st' [] = processLine st [] := by
  unfold processLine
  rw [h1, h2]
  by_cases hb : st.blockOpen = true
  · simp [hb]
  · simp [hb, h3]

theorem processLines_dropEventBlock (st : responsesSSEWriteState)
    (b rest : List (List Char))
    (hb : ∀ l ∈ b, l ≠ [] ∧ nonEmptyDataLine l = false) :
    processLines st (b ++ ([] :: rest)) = processLines st ([] :: rest) := by
  have h := processLines_eventOnly b st hb
  have hcongr := processLine_blank_congr st (processLines st b).1 h.2.1 h.2.2.1 h.2.2.2
  rw [processLines_append]
  simp only [processLines]
  rw [hcongr, h.1]
  simp

/-- C1: an event block that carries no non-empty `data:` line contributes
zero bytes to the output, in every sequence of `writeChunk` calls and at any
position in the stream.  Chunks `mid` whose logical lines form such a block
followed by its delimiter behave exactly like the bare one-newline delimiter
chunk (so the block's buffered `event:` lines and whitespace-only `data:`
lines are discarded), chunks `tail` whose lines form such a block left
unterminated before `writeDone` contribute nothing at the end of the stream,
and in particular the S1 scenario `writeChunk("")`, `writeChunk("event: x")`,
`writeDone` produces exactly the empty output. -/
theorem c1_eventOnlyBlocksSuppressed
    (pre post mid tail b c : List (List Char))
    (hmid : streamLines mid = b ++ [[]])
    (hb : ∀ l ∈ b, l ≠ [] ∧ nonEmptyDataLine l = false)
    (htail : streamLines tail = c)
    (hc : ∀ l ∈ c, l ≠ [] ∧ nonEmptyDataLine l = false) :
    sseOutput (pre ++ mid ++ post) = sseOutput (pre ++ [delimChunk] ++ post) ∧
    sseOutput (pre ++ tail) = sseOutput pre ∧
    sseOutput s1Chunks = [] := by
  refine ⟨?_, ?_, by decide⟩
  · have hdelim : streamLines [delimChunk] = [[]] := by decide
    have hstream : streamLines (pre ++ mid ++ post)
        = streamLines pre ++ (b ++ ([] :: streamLines post)) := by
      rw [streamLines_append, streamLines_append, hmid]
      simp [List.append_assoc]
    have hstream' : streamLines (pre ++ [delimChunk] ++ post)
        = streamLines pre ++ ([] :: streamLines post) := by
      rw [streamLines_append, streamLines_append, hdelim]
      simp [List.append_assoc]
    unfold sseOutput
    rw [runChunks_lines (pre ++ mid ++ post),
        runChunks_lines (pre ++ [delimChunk] ++ post), hstream, hstream',
        processLines_append (streamLines pre) (b ++ ([] :: streamLines post)),
        processLines_append (streamLines pre) ([] :: streamLines post),
        processLines_dropEventBlock _ b (streamLines post) hb]
  · have hstream : streamLines (pre ++ tail) = streamLines pre ++ c := by
      rw [streamLines_append, htail]
    have h := processLines_eventOnly c (processLines sseInit (streamLines pre)).1 hc
    unfold sseOutput
    rw [runChunks_lines (pre ++ tail), runChunks_lines pre, hstream,
        processLines_append (streamLines pre) c]
    dsimp only
    rw [h.1]
    unfold writeDone
    rw [h.2.2.1, h.2.2.2]
    simp

/-- Witness for C1 at a concrete mixed stream: after an emitted data block,
an event-only block behaves exactly like the bare delimiter chunk, an
unterminated event-only tail (event line plus whitespace-only data line)
contributes nothing, and scenario S1 produces exactly the empty output. -/
theorem c1_witness :
    (streamLines c1Mid = c1B ++ [[]] ∧
     (∀ l ∈ c1B, l ≠ [] ∧ nonEmptyDataLine l = false) ∧
     streamLines c1Tail = c1C ∧
     (∀ l ∈ c1C, l ≠ [] ∧ nonEmptyDataLine l = false)) ∧
    (sseOutput (c1Pre ++ c1Mid ++ c1Post) = sseOutput (c1Pre ++ [delimChunk] ++ c1Post) ∧
     sseOutput (c1Pre ++ c1Tail) = sseOutput c1Pre ∧
     sseOutput s1Chunks = []) :=
  ⟨⟨by decide, by decide, by decide, by decide⟩,
   c1_eventOnlyBlocksSuppressed c1Pre c1Post c1Mid c1Tail c1B c1C
     (by decide) (by decide) (by decide) (by decide)⟩

theorem splitOn_ne_nil (sep : Char) (cs : List Char) : splitOn sep cs ≠ [] := by
  induction cs with
  | nil => simp [splitOn]
  | cons c cs ih =>
    unfold splitOn
    cases h : splitOn sep cs with
    | nil => simp
    | cons l ls => split_ifs <;> simp

theorem contains_false_forall (ch : Char) (l : List Char) (h : l.contains ch = false) :
    ∀ x ∈ l, ¬ x = ch := by
  induction l with
  | nil => simp
  | cons c cs ih =>
    simp [List.contains_cons] at h
    intro x hx
    rcases List.mem_cons.mp hx with rfl | hx2
    · exact fun hh => h.1 hh.symm
    · exact ih (by simpa using h.2) x hx2

theorem splitOn_no_sep (sep : Char) (cs : List Char) :
    ∀ l ∈ splitOn sep cs, l.contains sep = false := by
  induction cs with
  | nil =>
    intro l hl
    simp [splitOn] at hl
    simp [hl]
  | cons c cs ih =>
    intro l hl
    unfold splitOn at hl
    cases h : splitOn sep cs with
    | nil => exact absurd h (splitOn_ne_nil sep cs)
    | cons l0 ls =>
      rw [h] at hl
      split_ifs at hl with hc
      · rcases List.mem_cons.mp hl with rfl | hl2
        · simp
        · exact ih l (h ▸ hl2)
      · rcases List.mem_cons.mp hl with rfl | hl2
        · have h0 : l0.contains sep = false := ih l0 (h ▸ List.mem_cons_self l0 ls)
          simp [List.contains_cons]
          exact ⟨fun hh => hc hh.symm, by simpa using h0⟩
        · exact ih l (h ▸ List.mem_cons_of_mem l0 hl2)

theorem mem_of_mem_dropLast {α : Type} (l : List α) (a : α) (h : a ∈ l.dropLast) :
    a ∈ l := by
  rw [List.dropLast_eq_take] at h
  exact List.mem_of_mem_take h

theorem chunkLines_no_nl (chunk : List Char) :
    ∀ l ∈ chunkLines chunk, l.contains '\n' = false := by
  intro l hl
  unfold chunkLines at hl
  split_ifs at hl
  · exact splitOn_no_sep '\n' chunk l (mem_of_mem_dropLast _ l hl)
  · exact splitOn_no_sep '\n' chunk l hl

theorem joinLines_cons_cons (l l' : List Char) (ls : List (List Char)) :
    joinLines (l :: l' :: ls) = l ++ '\n' :: joinLines (l' :: ls) := rfl

theorem joinLines_append_single (ls : List (List Char)) (x : List Char) (h : ls ≠ []) :
    joinLines (ls ++ [x]) = joinLines ls ++ '\n' :: x := by
  induction ls with
  | nil => exact absurd rfl h
  | cons l ls ih =>
    cases ls with
    | nil => simp [joinLines]
    | cons l' ls' =>
      have := ih (by simp)
      simp only [List.cons_append, joinLines_cons_cons]
      rw [List.cons_append] at this
      rw [this]
      simp

theorem renderBlocks_append_single (bs : List (List (List Char))) (b : List (List Char)) :
    renderBlocks (bs ++ [b]) = renderBlocks bs ++ (joinLines b ++ nl2) := by
  induction bs with
  | nil => simp [renderBlocks]
  | cons b0 bs ih => simp [renderBlocks, ih]

theorem goodBlocks_append_single (bs : List (List (List Char))) (b : List (List Char))
    (hbs : goodBlocks bs = true) (hb : goodBlock b = true) :
    goodBlocks (bs ++ [b]) = true := by
  simp [goodBlocks] at hbs ⊢
  exact ⟨hbs, hb⟩

theorem endsBlank_append_nl2 (xs : List Char) : endsBlank (xs ++ nl2) = true := by
  simp [endsBlank, nl2, List.reverse_append]

theorem endsBlank_snoc_ne (zs : List Char) (c : Char) (h : ¬ c = '\n') :
    endsBlank (zs ++ [c]) = false := by
  unfold endsBlank
  rw [List.reverse_append]
  cases hz : zs.reverse with
  | nil => simp
  | cons z zr => simp [h]

theorem joinLines_good_snoc (b : List (List Char)) (hb : goodBlock b = true) :
    ∃ ys c, joinLines b = ys ++ [c] ∧ ¬ c = '\n' := by
  induction b with
  | nil => simp [goodBlock] at hb
  | cons l ls ih =>
    cases ls with
    | nil =>
      simp [goodBlock, goodLine] at hb
      obtain ⟨hne, hnl⟩ := hb
      have hl : l ≠ [] := by
        cases l
        · simp at hne
        · simp
      refine ⟨l.dropLast, l.getLast hl, ?_, ?_⟩
      · simp [joinLines, List.dropLast_append_getLast]
      · exact contains_false_forall '\n' l (by simpa using hnl) _ (List.getLast_mem hl)
    | cons l' ls' =>
      have hb2 : goodBlock (l' :: ls') = true := by
        simp [goodBlock, goodLine] at hb ⊢
        exact hb.2
      obtain ⟨ys, c, hjc, hcn⟩ := ih hb2
      refine ⟨l ++ '\n' :: ys, c, ?_, hcn⟩
      rw [joinLines_cons_cons, hjc]
      simp

theorem runE_append (xs ys : List Char) : ∀ r, runE r (xs ++ ys) = runE (runE r xs) ys := by
  induction xs with
  | nil => intro r; simp [runE]
  | cons c cs ih => intro r; simp [runE, ih]

theorem findT_append (xs ys : List Char) :
    ∀ r, findT r (xs ++ ys) = (findT r xs || findT (runE r xs) ys) := by
  induction xs with
  | nil => intro r; simp [findT, runE]
  | cons c cs ih =>
    intro r
    by_cases hc : c = '\n'
    · by_cases hr : 2 ≤ r
      · simp [findT, runE, hc, hr]
      · simp [findT, runE, hc, hr, ih]
    · simp [findT, runE, hc, ih]

theorem findT_cons (r : Nat) (c : Char) (cs : List Char) :
    findT r (c :: cs) =
      if c = '\n' then (if 2 ≤ r then true else findT (r + 1) cs) else findT 0 cs := rfl

theorem runE_cons (r : Nat) (c : Char) (cs : List Char) :
    runE r (c :: cs) = runE (if c = '\n' then r + 1 else 0) cs := rfl

theorem findT_no_nl (l : List Char) (h : l.contains '\n' = false) :
    ∀ r, findT r l = false := by
  induction l with
  | nil => intro r; simp [findT]
  | cons c cs ih =>
    intro r
    simp [List.contains_cons] at h
    have hc : ¬ c = '\n' := fun hh => h.1 hh.symm
    rw [findT_cons, if_neg hc]
    exact ih (by simpa using h.2) 0

theorem runE_no_nl (l : List Char) (h : l.contains '\n' = false) (hne : l ≠ []) :
    ∀ r, runE r l = 0 := by
  induction l with
  | nil => exact absurd rfl hne
  | cons c cs ih =>
    intro r
    simp [List.contains_cons] at h
    have hc : ¬ c = '\n' := fun hh => h.1 hh.symm
    rw [runE_cons, if_neg hc]
    cases cs with
    | nil => rfl
    | cons c' cs' => exact ih (by simpa using h.2) (by simp) 0

theorem goodLine_ne_nil (l : List Char) (h : goodLine l = true) : l ≠ [] := by
  simp [goodLine] at h
  intro hh
  rw [hh] at h
  simp at h

theorem goodLine_no_nl (l : List Char) (h : goodLine l = true) :
    l.contains '\n' = false := by
  simp [goodLine] at h
  simpa using h.2

theorem goodBlock_cons_head (l : List Char) (ls : List (List Char))
    (h : goodBlock (l :: ls) = true) : goodLine l = true := by
  simp [goodBlock] at h
  exact h.1

theorem goodBlock_cons_tail (l l' : List Char) (ls' : List (List Char))
    (h : goodBlock (l :: l' :: ls') = true) : goodBlock (l' :: ls') = true := by
  simp [goodBlock] at h ⊢
  exact h.2

theorem findT_joinLines (b : List (List Char)) (hb : goodBlock b = true) :
    ∀ r, findT r (joinLines b) = false := by
  induction b with
  | nil => simp [goodBlock] at hb
  | cons l ls ih =>
    have hgl : goodLine l = true := goodBlock_cons_head l ls hb
    cases ls with
    | nil =>
      intro r
      exact findT_no_nl l (goodLine_no_nl l hgl) r
    | cons l' ls' =>
      intro r
      have hb2 : goodBlock (l' :: ls') = true := goodBlock_cons_tail l l' ls' hb
      rw [joinLines_cons_cons, findT_append]
      rw [findT_no_nl l (goodLine_no_nl l hgl) r,
        runE_no_nl l (goodLine_no_nl l hgl) (goodLine_ne_nil l hgl) r]
      rw [findT_cons]
      simp [ih hb2]

theorem runE_joinLines (b : List (List Char)) (hb : goodBlock b = true) :
    ∀ r, runE r (joinLines b) = 0 := by
  induction b with
  | nil => simp [goodBlock] at hb
  | cons l ls ih =>
    have hgl : goodLine l = true := goodBlock_cons_head l ls hb
    cases ls with
    | nil =>
      intro r
      exact runE_no_nl l (goodLine_no_nl l hgl) (goodLine_ne_nil l hgl) r
    | cons l' ls' =>
      intro r
      have hb2 : goodBlock (l' :: ls') = true := goodBlock_cons_tail l l' ls' hb
      rw [joinLines_cons_cons, runE_append,
        runE_no_nl l (goodLine_no_nl l hgl) (goodLine_ne_nil l hgl) r,
        runE_cons]
      simp [ih hb2]

theorem goodBlocks_cons_head (b : List (List Char)) (bs : List (List (List Char)))
    (h : goodBlocks (b :: bs) = true) : goodBlock b = true := by
  simp [goodBlocks] at h
  exact h.1

theorem goodBlocks_cons_tail (b : List (List Char)) (bs : List (List (List Char)))
    (h : goodBlocks (b :: bs) = true) : goodBlocks bs = true := by
  simp [goodBlocks] at h ⊢
  exact h.2

theorem findT_nl2_zero : findT 0 nl2 = false := rfl

theorem runE_nl2_zero : runE 0 nl2 = 2 := rfl

theorem findT_renderBlocks (bs : List (List (List Char))) (hbs : goodBlocks bs = true) :
    ∀ r, findT r (renderBlocks bs) = false := by
  induction bs with
  | nil => intro r; simp [renderBlocks, findT]
  | cons b bs ih =>
    intro r
    have hb : goodBlock b = true := goodBlocks_cons_head b bs hbs
    have hbs2 : goodBlocks bs = true := goodBlocks_cons_tail b bs hbs
    unfold renderBlocks
    rw [findT_append, findT_append, runE_append, findT_joinLines b hb,
      runE_joinLines b hb, runE_nl2_zero, findT_nl2_zero]
    simp [ih hbs2]

theorem renderBlocks_ends_blank (bs : List (List (List Char))) (h : bs ≠ []) :
    ∃ zs, renderBlocks bs = zs ++ nl2 := by
  induction bs with
  | nil => exact absurd rfl h
  | cons b bs ih =>
    cases bs with
    | nil => exact ⟨joinLines b, by simp [renderBlocks]⟩
    | cons b' bs' =>
      obtain ⟨zs, hz⟩ := ih (by simp)
      refine ⟨joinLines b ++ nl2 ++ zs, ?_⟩
      rw [show renderBlocks (b :: b' :: bs') =
        joinLines b ++ nl2 ++ renderBlocks (b' :: bs') from rfl, hz]
      simp [List.append_assoc]

theorem goodBlock_ne_nil (b : List (List Char)) (h : goodBlock b = true) : b ≠ [] := by
  intro hh
  rw [hh] at h
  simp [goodBlock] at h

theorem goodBlock_snoc (p : List (List Char)) (l : List Char)
    (hp : p.all goodLine = true) (hl : goodLine l = true) :
    goodBlock (p ++ [l]) = true := by
  simp [goodBlock, List.all_append] at hp hl ⊢
  exact ⟨fun x hx => hp x hx, hl⟩

theorem processLine_inv (st : responsesSSEWriteState) (out : List Char) (l : List Char)
    (hnl : l.contains '\n' = false) (hinv : sseInv st out) :
    sseInv (processLine st l).1 (out ++ (processLine st l).2) := by
  obtain ⟨hpend, hcase⟩ := hinv
  by_cases h0 : l = []
  · rcases hcase with ⟨hs, hb, ha, hout⟩ | ⟨hs, hb, ha, closed, opn, hgc, hgo, hout⟩ |
      ⟨hs, hb, ha, closed, hgc, hcne, hout⟩
    · have hpl : processLine st l = ({ st with pending := [] }, []) := by
        simp [processLine, h0, hb]
      rw [hpl]
      exact ⟨by simp, Or.inl ⟨hs, hb, ha, by simp [hout]⟩⟩
    · have hpl : processLine st l =
          ({ pending := [], blockOpen := false, sawData := st.sawData,
             atBoundary := true }, nl2) := by
        simp [processLine, h0, hb]
      rw [hpl]
      refine ⟨by simp, Or.inr (Or.inr ⟨hs, rfl, rfl, closed ++ [opn],
        goodBlocks_append_single closed opn hgc hgo, by simp, ?_⟩)⟩
      rw [hout, renderBlocks_append_single]
      simp [List.append_assoc]
    · have hpl : processLine st l = ({ st with pending := [] }, []) := by
        simp [processLine, h0, hb]
      rw [hpl]
      exact ⟨by simp, Or.inr (Or.inr ⟨hs, hb, ha, closed, hgc, hcne, by simp [hout]⟩)⟩
  · have hgl : goodLine l = true := by
      simp [goodLine, h0]
      simpa using hnl
    by_cases hd : isDataLine l = true
    · by_cases hw : (dataPayload l).all isWS = true
      · have hpl : processLine st l = (st, []) := by
          simp [processLine, h0, hd, hw]
        rw [hpl, List.append_nil]
        exact ⟨hpend, hcase⟩
      · by_cases hcont : (st.pending.isEmpty && st.blockOpen) = true
        · obtain ⟨hpe, hbo⟩ : st.pending = [] ∧ st.blockOpen = true := by
            rw [Bool.and_eq_true] at hcont
            exact ⟨by simpa using hcont.1, hcont.2⟩
          have hpl : processLine st l = (st, '\n' :: l) := by
            simp [processLine, h0, hd, hw, hcont]
          rw [hpl]
          rcases hcase with ⟨hs, hb, ha, hout⟩ | ⟨hs, hb, ha, closed, opn, hgc, hgo, hout⟩ |
            ⟨hs, hb, ha, closed, hgc, hcne, hout⟩
          · rw [hb] at hbo
            exact absurd hbo (by decide)
          · have hgo2 : opn.all goodLine = true := by
              have := hgo
              simp [goodBlock] at this
              simp [List.all_eq_true]
              exact this.2
            refine ⟨hpend, Or.inr (Or.inl ⟨hs, hb, ha, closed, opn ++ [l], hgc,
              goodBlock_snoc opn l hgo2 hgl, ?_⟩)⟩
            rw [hout, joinLines_append_single opn l (goodBlock_ne_nil opn hgo)]
            simp [List.append_assoc]
          · rw [hb] at hbo
            exact absurd hbo (by decide)
        · have hpl : processLine st l =
              ({ pending := [], blockOpen := true, sawData := true, atBoundary := false },
               (if st.sawData && !st.atBoundary then nl2 else []) ++
                 joinLines (st.pending ++ [l])) := by
            simp [processLine, h0, hd, hw, hcont]
          rw [hpl]
          have hgoodopn : goodBlock (st.pending ++ [l]) = true :=
            goodBlock_snoc st.pending l hpend hgl
          rcases hcase with ⟨hs, hb, ha, hout⟩ | ⟨hs, hb, ha, closed, opn, hgc, hgo, hout⟩ |
            ⟨hs, hb, ha, closed, hgc, hcne, hout⟩
          · refine ⟨by simp, Or.inr (Or.inl ⟨rfl, rfl, rfl, [], st.pending ++ [l],
              by simp [goodBlocks], hgoodopn, ?_⟩)⟩
            rw [hout, hs]
            simp [renderBlocks]
          · refine ⟨by simp, Or.inr (Or.inl ⟨rfl, rfl, rfl, closed ++ [opn],
              st.pending ++ [l], goodBlocks_append_single closed opn hgc hgo,
              hgoodopn, ?_⟩)⟩
            rw [hout, hs, ha, renderBlocks_append_single]
            simp [List.append_assoc]
          · refine ⟨by simp, Or.inr (Or.inl ⟨rfl, rfl, rfl, closed, st.pending ++ [l],
              hgc, hgoodopn, ?_⟩)⟩
            rw [hout, hs, ha]
            simp [List.append_assoc]
    · have hpl : processLine st l = ({ st with pending := st.pending ++ [l] }, []) := by
        simp [processLine, h0, hd]
      rw [hpl, List.append_nil]
      refine ⟨by simp [List.all_append, hpend, hgl], ?_⟩
      rcases hcase with ⟨hs, hb, ha, hout⟩ | ⟨hs, hb, ha, closed, opn, hgc, hgo, hout⟩ |
        ⟨hs, hb, ha, closed, hgc, hcne, hout⟩
      · exact Or.inl ⟨hs, hb, ha, hout⟩
      · exact Or.inr (Or.inl ⟨hs, hb, ha, closed, opn, hgc, hgo, hout⟩)
      · exact Or.inr (Or.inr ⟨hs, hb, ha, closed, hgc, hcne, hout⟩)

theorem processLines_inv (ls : List (List Char)) :
    ∀ (st : responsesSSEWriteState) (out : List Char),
    (∀ l ∈ ls, l.contains '\n' = false) → sseInv st out →
    sseInv (processLines st ls).1 (out ++ (processLines st ls).2) := by
  induction ls with
  | nil =>
    intro st out _ hinv
    simpa [processLines] using hinv
  | cons l ls ih =>
    intro st out hnl hinv
    have h1 := processLine_inv st out l (hnl l (by simp)) hinv
    have h2 := ih (processLine st l).1 (out ++ (processLine st l).2)
      (fun x hx => hnl x (by simp [hx])) h1
    simpa [processLines, List.append_assoc] using h2

theorem runChunks_inv (chunks : List (List Char)) :
    ∀ (st : responsesSSEWriteState) (out : List Char), sseInv st out →
    sseInv (runChunks st chunks).1 (out ++ (runChunks st chunks).2) := by
  induction chunks with
  | nil =>
    intro st out hinv
    simpa [runChunks] using hinv
  | cons c cs ih =>
    intro st out hinv
    have h1 : sseInv (writeChunk st c).1 (out ++ (writeChunk st c).2) := by
      unfold writeChunk
      exact processLines_inv (chunkLines c) st out (chunkLines_no_nl c) hinv
    have h2 := ih (writeChunk st c).1 (out ++ (writeChunk st c).2) h1
    simpa [runChunks, List.append_assoc] using h2

theorem sseInit_inv : sseInv sseInit [] :=
  ⟨by simp [sseInit], Or.inl ⟨rfl, rfl, rfl, rfl⟩⟩

/-- C2: the normalizer's total output is well-formed: it is the rendering
of a sequence of blocks of non-empty, newline-free lines, each terminated
by exactly one blank line; no run of three newlines (hence no two
consecutive `"\n\n"`) ever occurs; and `writeDone` appends a trailing blank
line iff a non-empty data block was emitted and the output does not already
end at a block boundary, emitting nothing otherwise. -/
theorem c2_wellformedOutput (chunks : List (List Char)) :
    (∃ bs, goodBlocks bs = true ∧ sseOutput chunks = renderBlocks bs) ∧
    findT 0 (sseOutput chunks) = false ∧
    writeDone (runChunks sseInit chunks).1 =
      (if (runChunks sseInit chunks).2 ≠ [] ∧
          endsBlank (runChunks sseInit chunks).2 = false then nl2 else []) := by
  have hinv := runChunks_inv chunks sseInit [] sseInit_inv
  rw [List.nil_append] at hinv
  obtain ⟨hpend, hcase⟩ := hinv
  rcases hcase with ⟨hs, hb, ha, hout⟩ | ⟨hs, hb, ha, closed, opn, hgc, hgo, hout⟩ |
    ⟨hs, hb, ha, closed, hgc, hcne, hout⟩
  · have hdone : writeDone (runChunks sseInit chunks).1 = [] := by
      simp [writeDone, hs]
    have hsse : sseOutput chunks = [] := by
      unfold sseOutput
      rw [hout, hdone]
      rfl
    refine ⟨⟨[], by simp [goodBlocks], by simp [hsse, renderBlocks]⟩, ?_, ?_⟩
    · rw [hsse]
      rfl
    · have hnc : ¬((runChunks sseInit chunks).2 ≠ [] ∧
          endsBlank (runChunks sseInit chunks).2 = false) :=
        fun hcond => hcond.1 hout
      rw [hdone, if_neg hnc]
  · have hdone : writeDone (runChunks sseInit chunks).1 = nl2 := by
      simp [writeDone, hs, ha]
    have hsse : sseOutput chunks = renderBlocks (closed ++ [opn]) := by
      unfold sseOutput
      rw [hout, hdone, renderBlocks_append_single]
      simp [List.append_assoc]
    obtain ⟨ys, c, hjc, hcn⟩ := joinLines_good_snoc opn hgo
    have houtne : (runChunks sseInit chunks).2 ≠ [] := by
      rw [hout, hjc]
      simp
    have hoblank : endsBlank (runChunks sseInit chunks).2 = false := by
      rw [hout, hjc, show renderBlocks closed ++ (ys ++ [c]) =
        (renderBlocks closed ++ ys) ++ [c] from by simp [List.append_assoc]]
      exact endsBlank_snoc_ne _ c hcn
    refine ⟨⟨closed ++ [opn], goodBlocks_append_single closed opn hgc hgo, hsse⟩, ?_, ?_⟩
    · rw [hsse]
      exact findT_renderBlocks _ (goodBlocks_append_single closed opn hgc hgo) 0
    · rw [hdone, if_pos ⟨houtne, hoblank⟩]
  · have hdone : writeDone (runChunks sseInit chunks).1 = [] := by
      simp [writeDone, hs, ha]
    have hsse : sseOutput chunks = renderBlocks closed := by
      unfold sseOutput
      rw [hout, hdone]
      simp
    obtain ⟨zs, hz⟩ := renderBlocks_ends_blank closed hcne
    have hoblank : endsBlank (runChunks sseInit chunks).2 = true := by
      rw [hout, hz]
      exact endsBlank_append_nl2 zs
    refine ⟨⟨closed, hgc, hsse⟩, ?_, ?_⟩
    · rw [hsse]
      exact findT_renderBlocks _ hgc 0
    · have hnc : ¬((runChunks sseInit chunks).2 ≠ [] ∧
          endsBlank (runChunks sseInit chunks).2 = false) := by
        intro hcond
        have := hoblank.symm.trans hcond.2
        exact absurd this (by decide)
      rw [hdone, if_neg hnc]

theorem getField_setField_same (fs : List (List Char × Json)) (k : List Char) (v : Json) :
    getField (setField fs k v) k = some v := by
  induction fs with
  | nil => simp [setField, getField]
  | cons kv fs ih =>
    by_cases h : kv.1 = k
    · simp [setField, getField, h]
    · simp [setField, getField, h, ih]

theorem getField_setField_other (fs : List (List Char × Json)) (k' k : List Char) (v : Json)
    (h : ¬ k' = k) :
    getField (setField fs k' v) k = getField fs k := by
  have h' : ¬ k = k' := fun hh => h hh.symm
  induction fs with
  | nil => simp [setField, getField, h, h']
  | cons kv fs ih =>
    by_cases h2 : kv.1 = k'
    · simp [setField, getField, h2, h, h']
    · simp [setField, getField, h2, ih]

theorem getReasoningEffort_setPath (fs : List (List Char × Json)) (s : List Char) :
    getReasoningEffort (setReasoningEffortPath fs (Json.str s)) = some s := by
  unfold setReasoningEffortPath getReasoningEffort
  cases h : getField fs reasoningKey with
  | none => simp [getField_setField_same, getStrField, getField]
  | some j =>
    cases j <;>
      simp [getField_setField_same, getStrField, getField]

theorem getReasoningEffort_setField_other (fs : List (List Char × Json)) (k : List Char)
    (v : Json) (h : ¬ k = reasoningKey) :
    getReasoningEffort (setField fs k v) = getReasoningEffort fs := by
  unfold getReasoningEffort
  rw [getField_setField_other fs k reasoningKey v h]

theorem resolveCodexAlias_effort_mem (name b e : List Char)
    (h : resolveCodexAlias name = some (b, e)) :
    codexEfforts.contains e = true := by
  unfold resolveCodexAlias at h
  obtain ⟨base, -, hb⟩ := List.exists_of_findSome?_eq_some h
  unfold tryCodexBase at hb
  split at hb
  · rename_i hc
    simp only [Bool.and_eq_true] at hc
    have hbe : base = b ∧ name.drop (base.length + 1) = e := by simpa using hb
    rw [← hbe.2]
    exact hc.2
  · exact absurd hb (by simp)

theorem codexEffort_canonical (e : List Char) (h : codexEfforts.contains e = true) :
    lowerC (trimC e) = e ∧ (lowerC (trimC e)).isEmpty = false := by
  have hm : e ∈ codexEfforts := by
    simpa using h
  fin_cases hm <;> exact ⟨by decide, by decide⟩

/-- C3: for every recognized codex alias, the upstream body built for the
request carries `model = baseModel`, `reasoning.effort` equal to the
lowercased and trimmed effort, and `stream = true` regardless of the
client's `Stream` flag. -/
theorem c3_aliasRequestBody (name b e : List Char) (payload : List (List Char × Json))
    (clientStream : Bool) (h : resolveCodexAlias name = some (b, e)) :
    getStrField (codexUpstreamBody name payload clientStream) modelKey = some b ∧
    getReasoningEffort (codexUpstreamBody name payload clientStream) =
      some (lowerC (trimC e)) ∧
    getBoolField (codexUpstreamBody name payload clientStream) streamKey = some true := by
  have hmem := resolveCodexAlias_effort_mem name b e h
  obtain ⟨hcan, hne⟩ := codexEffort_canonical e hmem
  unfold codexUpstreamBody
  rw [h]
  simp only [setReasoningEffortByAlias, hne, Bool.false_eq_true, if_false]
  refine ⟨?_, ?_, ?_⟩
  · unfold getStrField
    rw [getField_setField_other _ streamKey modelKey _ (by decide)]
    unfold setReasoningEffortPath
    cases hg : getField (setField payload modelKey (Json.str b)) reasoningKey with
    | none =>
      rw [getField_setField_other _ reasoningKey modelKey _ (by decide),
        getField_setField_same]
    | some j =>
      cases j <;>
        rw [getField_setField_other _ reasoningKey modelKey _ (by decide),
          getField_setField_same]
  · rw [getReasoningEffort_setField_other _ streamKey _ (by decide), hcan,
      getReasoningEffort_setPath]
  · unfold getBoolField
    rw [getField_setField_same]

/-- Witness for C3 at scenario S4: `Model="gpt-5.1-codex-max-xhigh"`,
`Payload={input:[]}`, `Stream=false` yields an upstream body with
`model=="gpt-5.1-codex-max"`, `reasoning.effort=="xhigh"`, `stream==true`. -/
theorem c3_witness :
    getStrField (codexUpstreamBody c3Name c3Payload false) modelKey = some c3Base ∧
    getReasoningEffort (codexUpstreamBody c3Name c3Payload false) =
      some (lowerC (trimC c3Eff)) ∧
    getBoolField (codexUpstreamBody c3Name c3Payload false) streamKey = some true :=
  c3_aliasRequestBody c3Name c3Base c3Eff c3Payload false (by decide)

/-- C8: the prompt-cache-key builder is deterministic.  Whatever the state
of the in-process cache — in particular after `deleteCodexCache` evicted the
entry, simulating a process restart — `cacheHelper` writes the same key
`"{Model}-{userId}"` into `prompt_cache_key` and echoes exactly that key in
the `Session_id` and `Conversation_id` headers. -/
theorem c8_promptCacheKeyDeterministic (model userId : List Char)
    (raw : List (List Char × Json)) (cache1 cache2 : List (List Char)) :
    getStrField (cacheHelper cache1 model userId raw).1.bodyFields promptCacheKeyKey =
      some (codexCacheKey model userId) ∧
    (cacheHelper cache1 model userId raw).1.sessionId = codexCacheKey model userId ∧
    (cacheHelper cache1 model userId raw).1.conversationId = codexCacheKey model userId ∧
    getStrField
        (cacheHelper (deleteCodexCache (codexCacheKey model userId) cache2) model userId
          raw).1.bodyFields promptCacheKeyKey =
      getStrField (cacheHelper cache1 model userId raw).1.bodyFields promptCacheKeyKey ∧
    (cacheHelper (deleteCodexCache (codexCacheKey model userId) cache2) model userId
        raw).1.sessionId =
      (cacheHelper cache1 model userId raw).1.sessionId := by
  refine ⟨?_, rfl, rfl, ?_, rfl⟩ <;>
    simp [cacheHelper, getStrField, getField_setField_same]

theorem fsLookup_erase_self (fs : FS) (p : List Char) :
    fsLookup (fsErase fs p) p = none := by
  induction fs with
  | nil => simp [fsErase, fsLookup]
  | cons kv fs ih =>
    by_cases h : kv.1 = p
    · simpa [fsErase, fsLookup, h] using ih
    · simpa [fsErase, fsLookup, h] using ih

theorem fsLookup_erase_other (fs : FS) (p q : List Char) (h : ¬ q = p) :
    fsLookup (fsErase fs p) q = fsLookup fs q := by
  have h' : ¬ p = q := fun hh => h hh.symm
  induction fs with
  | nil => simp [fsErase, fsLookup]
  | cons kv fs ih =>
    by_cases h2 : kv.1 = p
    · have h3 : ¬ kv.1 = q := by
        rw [h2]
        exact h'
      simp [fsErase, fsLookup, h2, h3, h, h', ih]
    · by_cases h3 : kv.1 = q
      · simp [fsErase, fsLookup, h2, h3, h, h']
      · simp [fsErase, fsLookup, h2, h3, h, h', ih]

theorem fsLookup_insert_self (fs : FS) (p : List Char) (e : FileEntry) :
    fsLookup (fsInsert fs p e) p = some e := by
  simp [fsInsert, fsLookup]

theorem fsLookup_insert_other (fs : FS) (p q : List Char) (e : FileEntry) (h : ¬ q = p) :
    fsLookup (fsInsert fs p e) q = fsLookup fs q := by
  have h2 : ¬ p = q := fun hh => h hh.symm
  simp [fsInsert, fsLookup, h2]
  exact fsLookup_erase_other fs p q h

/-- C9 counterexample: with the destination present and a failure injected
at the final rename, `AtomicWriteFile` returns an error, yet the previous
contents of the destination are gone — the unconditional remove-then-rename
deleted them before the rename failed.  This falsifies the claim that an
erroring call leaves the previous contents of `path` unchanged. -/
theorem c9_counterexample :
    exceptIsError (AtomicWriteFile c9FS c9Path c9Data 384 c9Tmp c9RenameFault).1 = true ∧
    fsLookup c9FS c9Path = some c9Old ∧
    fsLookup (AtomicWriteFile c9FS c9Path c9Data 384 c9Tmp c9RenameFault).2.1 c9Path = none ∧
    (AtomicWriteFile c9FS c9Path c9Data 384 c9Tmp c9RenameFault).2.2 =
      [FileOp.mkdirAll, FileOp.createTemp, FileOp.chmod, FileOp.write, FileOp.sync,
       FileOp.close, FileOp.removeDest, FileOp.rename] := by decide

/-- C9 (amended): `AtomicWriteFile` writes the data to a temp file in the
destination's directory, applies the permission, syncs, closes, then
*unconditionally* removes an existing destination (ignoring not-exist) and
renames the temp file onto it; whenever it returns an error the temp file
has been removed, and the previous contents of `path` are unchanged unless
the failure occurred at the rename step after the destination was already
removed. -/
theorem c9_atomicWriteAmended (fs : FS) (path data : List Char) (perm : Nat)
    (tmpPath : List Char) (f : WriteFaults) (hne : ¬ tmpPath = path)
    (hfresh : fsLookup fs tmpPath = none) :
    (exceptIsError (AtomicWriteFile fs path data perm tmpPath f).1 = true →
      fsLookup (AtomicWriteFile fs path data perm tmpPath f).2.1 tmpPath = none ∧
      (f.renameFails = false →
        fsLookup (AtomicWriteFile fs path data perm tmpPath f).2.1 path = fsLookup fs path)) ∧
    (f = noFaults →
      (AtomicWriteFile fs path data perm tmpPath f).1 = Except.ok () ∧
      fsLookup (AtomicWriteFile fs path data perm tmpPath f).2.1 path =
        some { content := data, perm := perm } ∧
      fsLookup (AtomicWriteFile fs path data perm tmpPath f).2.1 tmpPath = none ∧
      (AtomicWriteFile fs path data perm tmpPath f).2.2 =
        [FileOp.mkdirAll, FileOp.createTemp, FileOp.chmod, FileOp.write, FileOp.sync,
         FileOp.close, FileOp.removeDest, FileOp.rename]) := by
  have hpt : ¬ path = tmpPath := fun hh => hne hh.symm
  have hlook3 :
      fsLookup (fsInsert (fsInsert (fsInsert fs tmpPath { content := [], perm := 384 })
        tmpPath { content := [], perm := perm }) tmpPath { content := data, perm := perm })
        path = fsLookup fs path := by
    rw [fsLookup_insert_other _ _ _ _ hpt, fsLookup_insert_other _ _ _ _ hpt,
      fsLookup_insert_other _ _ _ _ hpt]
  unfold AtomicWriteFile
  simp only [hlook3]
  split_ifs with h1 h2 h3 h4 h5 h6 h7 h8
  · exact ⟨fun _ => ⟨hfresh, fun _ => rfl⟩,
      fun hf => by rw [hf] at h1; exact absurd h1 (by decide)⟩
  · exact ⟨fun _ => ⟨hfresh, fun _ => rfl⟩,
      fun hf => by rw [hf] at h2; exact absurd h2 (by decide)⟩
  · refine ⟨fun _ => ⟨?_, fun _ => ?_⟩,
      fun hf => by rw [hf] at h3; exact absurd h3 (by decide)⟩ <;>
      simp [fsLookup_erase_self, fsLookup_erase_other, fsLookup_insert_other, hpt, hne]
  · refine ⟨fun _ => ⟨?_, fun _ => ?_⟩,
      fun hf => by rw [hf] at h4; exact absurd h4 (by decide)⟩ <;>
      simp [fsLookup_erase_self, fsLookup_erase_other, fsLookup_insert_other, hpt, hne]
  · refine ⟨fun _ => ⟨?_, fun _ => ?_⟩,
      fun hf => by rw [hf] at h5; exact absurd h5 (by decide)⟩ <;>
      simp [fsLookup_erase_self, fsLookup_erase_other, fsLookup_insert_other, hpt, hne]
  · refine ⟨fun _ => ⟨?_, fun _ => ?_⟩,
      fun hf => by rw [hf] at h6; exact absurd h6 (by decide)⟩ <;>
      simp [fsLookup_erase_self, fsLookup_erase_other, fsLookup_insert_other, hpt, hne]
  · refine ⟨fun _ => ⟨?_, fun _ => ?_⟩,
      fun hf => by rw [hf] at h7; simp [noFaults] at h7⟩ <;>
      simp [fsLookup_erase_self, fsLookup_erase_other, fsLookup_insert_other, hpt, hne]
  · refine ⟨fun _ => ⟨?_, fun hrf => ?_⟩,
      fun hf => by rw [hf] at h8; exact absurd h8 (by decide)⟩
    · simp [fsLookup_erase_self]
    · rw [hrf] at h8
      exact absurd h8 (by decide)
  · refine ⟨fun herr => ?_, fun _ => ⟨rfl, ?_, ?_, ?_⟩⟩
    · simp [exceptIsError] at herr
    · simp [fsLookup_insert_self]
    · simp [fsLookup_insert_other, fsLookup_erase_self, hne]
    · simp

theorem cacheLookup_cons_self (entries : List (List Char × HTTPClient)) (k : List Char)
    (c : HTTPClient) : cacheLookup ((k, c) :: entries) k = some c := by
  simp [cacheLookup]

theorem cacheTimeouts_cons (entries : List (List Char × HTTPClient)) (k0 : List Char)
    (c0 : HTTPClient) (hc0 : c0.timeout = 0)
    (hc : ∀ k cl, cacheLookup entries k = some cl → cl.timeout = 0) :
    ∀ k cl, cacheLookup ((k0, c0) :: entries) k = some cl → cl.timeout = 0 := by
  intro k cl h
  by_cases hk : k0 = k
  · simp [cacheLookup, hk] at h
    rw [← h]
    exact hc0
  · simp [cacheLookup, hk] at h
    exact hc k cl h

theorem npac_cacheTimeoutsZero (cache : ClientCache) (ctxRT : Option Nat) (cfg : SDKConfig)
    (auth : Option Auth) (timeout : Nat) (service : List Char)
    (hc : ∀ k cl, cacheLookup cache.entries k = some cl → cl.timeout = 0) :
    ∀ k cl,
      cacheLookup (newProxyAwareHTTPClient cache ctxRT cfg auth timeout service).2.entries k =
        some cl → cl.timeout = 0 := by
  intro k cl h
  unfold newProxyAwareHTTPClient at h
  split at h
  · split_ifs at h <;> dsimp only at h <;> exact hc k cl h
  · split_ifs at h <;> dsimp only at h <;>
      first
        | exact cacheTimeouts_cons _ _ _ rfl hc k cl h
        | exact hc k cl h

theorem npac_sameTransport (cache : ClientCache) (cfg : SDKConfig) (auth : Option Auth)
    (service : List Char) :
    (newProxyAwareHTTPClient (newProxyAwareHTTPClient cache none cfg auth 0 service).2
        none cfg auth 0 service).1.transport =
      (newProxyAwareHTTPClient cache none cfg auth 0 service).1.transport := by
  cases hcl : cacheLookup cache.entries (effectiveProxyURL cfg auth service) with
  | some cached =>
    have h1 : newProxyAwareHTTPClient cache none cfg auth 0 service = (cached, cache) := by
      unfold newProxyAwareHTTPClient
      simp only [hcl]
      simp
    rw [h1]
    dsimp only
    rw [h1]
  | none =>
    by_cases hv :
        (!(effectiveProxyURL cfg auth service).isEmpty &&
          validProxyScheme (effectiveProxyURL cfg auth service)) = true
    · have h1 : newProxyAwareHTTPClient cache none cfg auth 0 service =
          ({ transport := some cache.nextId, timeout := 0 },
           { entries := (effectiveProxyURL cfg auth service,
               ({ transport := some cache.nextId, timeout := 0 } : HTTPClient)) ::
               cache.entries,
             nextId := cache.nextId + 1 }) := by
        unfold newProxyAwareHTTPClient
        simp only [hcl, hv]
        simp
      rw [h1]
      dsimp only
      unfold newProxyAwareHTTPClient
      simp only [cacheLookup_cons_self]
      simp
    · by_cases hemp : (effectiveProxyURL cfg auth service).isEmpty = true
      · have h1 : newProxyAwareHTTPClient cache none cfg auth 0 service =
            ({ transport := none, timeout := 0 },
             { entries := (effectiveProxyURL cfg auth service,
                 ({ transport := none, timeout := 0 } : HTTPClient)) :: cache.entries,
               nextId := cache.nextId }) := by
          unfold newProxyAwareHTTPClient
          simp only [hcl, hv]
          simp [hemp]
        rw [h1]
        dsimp only
        unfold newProxyAwareHTTPClient
        simp only [cacheLookup_cons_self]
        simp
      · have h1 : newProxyAwareHTTPClient cache none cfg auth 0 service =
            ({ transport := none, timeout := 0 }, cache) := by
          unfold newProxyAwareHTTPClient
          simp only [hcl, hv]
          simp [hemp]
        rw [h1]
        dsimp only
        rw [h1]

theorem npac_wrapper (cache : ClientCache) (cfg : SDKConfig) (auth : Option Auth)
    (service : List Char) (timeout : Nat) (ht : 0 < timeout) :
    (newProxyAwareHTTPClient cache none cfg auth timeout service).1.timeout = timeout ∧
    (newProxyAwareHTTPClient cache none cfg auth timeout service).1.transport =
      (newProxyAwareHTTPClient cache none cfg auth 0 service).1.transport := by
  cases hcl : cacheLookup cache.entries (effectiveProxyURL cfg auth service) with
  | some cached =>
    unfold newProxyAwareHTTPClient
    simp only [hcl]
    simp [ht]
  | none =>
    unfold newProxyAwareHTTPClient
    simp only [hcl]
    split_ifs with hv <;> simp [ht]

/-- C5 counterexample: with the same effective proxy URL (the empty string,
i.e. no proxy) and `timeout = 0`, two calls whose contexts carry different
round-trippers return clients with different underlying transports — the
context-supplied transport is deliberately never cached, so the claim's
unconditional transport identity fails. -/
theorem c5_counterexample :
    effectiveProxyURL c5Cfg none c5Svc = [] ∧
    (newProxyAwareHTTPClient c5Cache0 (some 100) c5Cfg none 0 c5Svc).1.transport = some 100 ∧
    (newProxyAwareHTTPClient (newProxyAwareHTTPClient c5Cache0 (some 100) c5Cfg none 0
        c5Svc).2 (some 200) c5Cfg none 0 c5Svc).1.transport = some 200 ∧
    ¬((newProxyAwareHTTPClient c5Cache0 (some 100) c5Cfg none 0 c5Svc).1.transport =
      (newProxyAwareHTTPClient (newProxyAwareHTTPClient c5Cache0 (some 100) c5Cfg none 0
        c5Svc).2 (some 200) c5Cfg none 0 c5Svc).1.transport) := by decide

/-- C5 (amended): provided the calls take no transport from the context,
two constructor calls with the same effective proxy URL and `timeout = 0`
return clients with reference-equal transports; every client stored in the
cache keeps `Timeout = 0`; and a call with a non-zero timeout returns a
per-call wrapper carrying the requested timeout and sharing the transport
that the `timeout = 0` call returns. -/
theorem c5_transportCacheAmended (cache : ClientCache) (ctxRT : Option Nat)
    (cfg : SDKConfig) (auth : Option Auth) (service : List Char) (timeout : Nat)
    (hc : ∀ k cl, cacheLookup cache.entries k = some cl → cl.timeout = 0) :
    ((newProxyAwareHTTPClient (newProxyAwareHTTPClient cache none cfg auth 0 service).2
        none cfg auth 0 service).1.transport =
      (newProxyAwareHTTPClient cache none cfg auth 0 service).1.transport) ∧
    (∀ k cl,
      cacheLookup (newProxyAwareHTTPClient cache ctxRT cfg auth timeout service).2.entries k =
        some cl → cl.timeout = 0) ∧
    (0 < timeout →
      (newProxyAwareHTTPClient cache none cfg auth timeout service).1.timeout = timeout ∧
      (newProxyAwareHTTPClient cache none cfg auth timeout service).1.transport =
        (newProxyAwareHTTPClient cache none cfg auth 0 service).1.transport) :=
  ⟨npac_sameTransport cache cfg auth service,
   npac_cacheTimeoutsZero cache ctxRT cfg auth timeout service hc,
   fun ht => npac_wrapper cache cfg auth service timeout ht⟩

/-- Witness for the amended C5 at a concrete SOCKS5 auth proxy: the second
`timeout = 0` call shares the first call's transport, the cache keeps only
`Timeout = 0` clients, and a `timeout = 5` call returns a wrapper with
timeout 5 over the same transport. -/
theorem c5_witness :
    ((newProxyAwareHTTPClient (newProxyAwareHTTPClient c5Cache0 none c5Cfg (some c5Auth) 0
        c5Svc).2 none c5Cfg (some c5Auth) 0 c5Svc).1.transport =
      (newProxyAwareHTTPClient c5Cache0 none c5Cfg (some c5Auth) 0 c5Svc).1.transport) ∧
    (∀ k cl,
      cacheLookup (newProxyAwareHTTPClient c5Cache0 none c5Cfg (some c5Auth) 5
        c5Svc).2.entries k = some cl → cl.timeout = 0) ∧
    ((newProxyAwareHTTPClient c5Cache0 none c5Cfg (some c5Auth) 5 c5Svc).1.timeout = 5 ∧
      (newProxyAwareHTTPClient c5Cache0 none c5Cfg (some c5Auth) 5 c5Svc).1.transport =
        (newProxyAwareHTTPClient c5Cache0 none c5Cfg (some c5Auth) 0 c5Svc).1.transport) := by
  have h := c5_transportCacheAmended c5Cache0 none c5Cfg (some c5Auth) c5Svc 5
    (by intro k cl hkl; simp [c5Cache0, cacheLookup] at hkl)
  exact ⟨h.1, h.2.1, h.2.2 (by decide)⟩

theorem shouldBypassProxy_of_match (host : List Char) (patterns : List (List Char))
    (hne : (lowerC (trimC host)).isEmpty = false)
    (hm : ∃ p ∈ patterns, specNoProxyMatches p (bypassHostOf host) = true) :
    shouldBypassProxy host patterns = true := by
  obtain ⟨p, hp, hmatch⟩ := hm
  have hpe : patterns.isEmpty = false := by
    cases patterns
    · simp at hp
    · simp
  unfold shouldBypassProxy
  rw [hne, hpe]
  simp only [Bool.or_self, Bool.false_eq_true, if_false]
  rw [List.any_eq_true]
  refine ⟨p, hp, ?_⟩
  by_cases hd : startsW ['.'] p = true <;>
    simp [specNoProxyMatches, hd] at hmatch ⊢ <;> tauto

/-- C6 counterexample: the host `example.com:443` matches the NO_PROXY
pattern `example.com` — the util transport bypasses it — yet the dial
decision of the SOCKS5 transport built by the executor's
`buildProxyTransport` still goes through the proxy dialer, and its
HTTP/HTTPS proxy function still returns the proxy URL: the executor-built
transports never consult NO_PROXY, so the claim fails for them. -/
theorem c6_counterexample :
    specNoProxyMatches c6Host (bypassHostOf c6Addr) = true ∧
    shouldBypassProxy c6Addr (parseNoProxyList c6Raw) = true ∧
    executorSocksDialsDirect c6Addr = false ∧
    executorHttpProxyChoice c6Proxy c6Host = some c6Proxy := by decide

/-- C6 (amended): for the transports built by the util package's
`SetProxyForService`, every dial whose target host matches a NO_PROXY
pattern (comma-separated; `*` matches all; a leading-dot pattern matches
host suffixes; a bare pattern matches the host and its subdomains) uses the
direct dialer (SOCKS5 case) and a nil proxy URL (HTTP/HTTPS case); the
executor's `buildProxyTransport` ignores NO_PROXY. -/
theorem c6_noProxyBypassAmended (raw host proxyURL : List Char)
    (hne : (lowerC (trimC host)).isEmpty = false)
    (hm : ∃ p ∈ parseNoProxyList raw, specNoProxyMatches p (bypassHostOf host) = true) :
    utilSocksDialsDirect (parseNoProxyList raw) host = true ∧
    utilHttpProxyChoice (parseNoProxyList raw) proxyURL host = none := by
  have hb := shouldBypassProxy_of_match host (parseNoProxyList raw) hne hm
  constructor
  · unfold utilSocksDialsDirect
    exact hb
  · unfold utilHttpProxyChoice
    rw [hb]
    simp

/-- Witness for the amended C6: `NO_PROXY=".internal.example, Foo.COM ,"`
and address `api.foo.com:443` — the bare pattern is trimmed and lowercased
and matches the host as a subdomain, so the util SOCKS5 dial is direct and
the util HTTP proxy function returns nil. -/
theorem c6_witness :
    utilSocksDialsDirect (parseNoProxyList c6WitRaw) c6WitAddr = true ∧
    utilHttpProxyChoice (parseNoProxyList c6WitRaw) c6Proxy c6WitAddr = none :=
  c6_noProxyBypassAmended c6WitRaw c6WitAddr c6Proxy (by decide)
    ⟨("foo.com".data), by decide, by decide⟩

theorem parseMaxAttempts_pos (env : Option (List Char)) : 0 < parseMaxAttempts env := by
  unfold parseMaxAttempts
  split
  · split_ifs with hn
    · omega
    · decide
  · decide

theorem runShimAux_le (maxA : Nat) (outcomes : List AttemptOutcome) :
    ∀ prior, prior < maxA →
      (runShimAux maxA prior outcomes).attemptsMade + prior ≤ maxA := by
  induction outcomes with
  | nil =>
    intro prior h
    simp [runShimAux]
    omega
  | cons o rest ih =>
    intro prior h
    cases o with
    | errorBeforeHeaders msg =>
      by_cases hr : (isRetryableElectronError msg && decide (prior + 1 < maxA)) = true
      · have hr' := hr
        rw [Bool.and_eq_true] at hr'
        have hlt : prior + 1 < maxA := of_decide_eq_true hr'.2
        have hrec := ih (prior + 1) hlt
        simp [runShimAux, hr]
        omega
      · simp [runShimAux, hr]
        omega
    | response chunks t =>
      simp [runShimAux]
      omega

theorem runShimAux_prefixErrors (maxA : Nat) (outcomes : List AttemptOutcome) :
    ∀ prior i, i + 1 < (runShimAux maxA prior outcomes).attemptsMade →
      ∃ m, outcomes.get? i = some (AttemptOutcome.errorBeforeHeaders m) ∧
        isRetryableElectronError m = true ∧ prior + i + 1 < maxA := by
  induction outcomes with
  | nil =>
    intro prior i h
    simp [runShimAux] at h
  | cons o rest ih =>
    intro prior i h
    cases o with
    | errorBeforeHeaders msg =>
      by_cases hr : (isRetryableElectronError msg && decide (prior + 1 < maxA)) = true
      · have hr' := hr
        rw [Bool.and_eq_true] at hr'
        have hlt : prior + 1 < maxA := of_decide_eq_true hr'.2
        simp [runShimAux, hr] at h
        cases i with
        | zero => exact ⟨msg, by simp, hr'.1, by omega⟩
        | succ j =>
          have hj : j + 1 < (runShimAux maxA (prior + 1) rest).attemptsMade := by omega
          obtain ⟨m, hg, hr2, hlt2⟩ := ih (prior + 1) j hj
          exact ⟨m, by simpa using hg, hr2, by omega⟩
      · simp [runShimAux, hr] at h
    | response chunks t =>
      simp [runShimAux] at h

theorem runShimAux_backoffs (maxA : Nat) (outcomes : List AttemptOutcome) :
    ∀ prior i b, (runShimAux maxA prior outcomes).backoffs.get? i = some b →
      b = min 1000 (250 * (prior + i + 1)) := by
  induction outcomes with
  | nil =>
    intro prior i b h
    simp [runShimAux] at h
  | cons o rest ih =>
    intro prior i b h
    cases o with
    | errorBeforeHeaders msg =>
      by_cases hr : (isRetryableElectronError msg && decide (prior + 1 < maxA)) = true
      · simp [runShimAux, hr] at h
        cases i with
        | zero =>
          simp at h
          omega
        | succ j =>
          have := ih (prior + 1) j b (by simpa using h)
          omega
      · simp [runShimAux, hr] at h
    | response chunks t =>
      simp [runShimAux] at h

/-- C7: the subprocess shim makes at most `maxAttempts` attempts (default
2); every attempt before the final one failed with a pre-headers error
matching the retryable set while the attempt count was still below
`maxAttempts`; the backoff before retry `i+1` is `min(1000, 250 × (i+1))`
milliseconds; and a retry never follows an attempt whose response (and thus
any stdout bytes) was observed. -/
theorem c7_shimRetryPolicy (env : Option (List Char)) (outcomes : List AttemptOutcome) :
    parseMaxAttempts none = 2 ∧
    (runShim (parseMaxAttempts env) outcomes).attemptsMade ≤ parseMaxAttempts env ∧
    (∀ i, i + 1 < (runShim (parseMaxAttempts env) outcomes).attemptsMade →
      ∃ m, outcomes.get? i = some (AttemptOutcome.errorBeforeHeaders m) ∧
        isRetryableElectronError m = true ∧ i + 1 < parseMaxAttempts env) ∧
    (∀ i b, (runShim (parseMaxAttempts env) outcomes).backoffs.get? i = some b →
      b = min 1000 (250 * (i + 1))) ∧
    (∀ i chunks t, outcomes.get? i = some (AttemptOutcome.response chunks t) →
      ¬ i + 1 < (runShim (parseMaxAttempts env) outcomes).attemptsMade) := by
  refine ⟨by decide, ?_, ?_, ?_, ?_⟩
  · have h := runShimAux_le (parseMaxAttempts env) outcomes 0 (parseMaxAttempts_pos env)
    simpa [runShim] using h
  · intro i h
    have h2 := runShimAux_prefixErrors (parseMaxAttempts env) outcomes 0 i
      (by simpa [runShim] using h)
    simpa [runShim] using h2
  · intro i b h
    have h2 := runShimAux_backoffs (parseMaxAttempts env) outcomes 0 i b
      (by simpa [runShim] using h)
    simpa using h2
  · intro i chunks t hg h
    obtain ⟨m, hg2, -, -⟩ := runShimAux_prefixErrors (parseMaxAttempts env) outcomes 0 i
      (by simpa [runShim] using h)
    rw [hg] at hg2
    exact absurd hg2 (by simp)

/-- Witness for C7: with the default `maxAttempts = 2` and one retryable
connection reset followed by a clean response, the shim makes exactly two
attempts, the first consumed outcome is the retryable pre-headers error,
and the single backoff is 250 ms. -/
theorem c7_witness :
    (runShim (parseMaxAttempts none) c7Demo).attemptsMade ≤ parseMaxAttempts none ∧
    (∃ m, c7Demo.get? 0 = some (AttemptOutcome.errorBeforeHeaders m) ∧
      isRetryableElectronError m = true ∧ 0 + 1 < parseMaxAttempts none) ∧
    (∀ b, (runShim (parseMaxAttempts none) c7Demo).backoffs.get? 0 = some b →
      b = min 1000 (250 * (0 + 1))) := by
  have h := c7_shimRetryPolicy none c7Demo
  exact ⟨h.2.1, h.2.2.1 0 (by decide), fun b hb => h.2.2.2.1 0 b hb⟩

theorem regLookup_registerClient_self (reg : Registry) (id p : List Char)
    (ms : List (List Char)) :
    regLookup (registerClient reg id p ms) id = some { provider := p, models := ms } := by
  induction reg with
  | nil => simp [registerClient, regLookup]
  | cons kv rest ih =>
    obtain ⟨k, v⟩ := kv
    by_cases h : k = id
    · simp [registerClient, regLookup, h]
    · simp [registerClient, regLookup, h, ih]

theorem regLookup_registerClient_other (reg : Registry) (id q p : List Char)
    (ms : List (List Char)) (h : ¬ q = id) :
    regLookup (registerClient reg id p ms) q = regLookup reg q := by
  have h' : ¬ id = q := fun hh => h hh.symm
  induction reg with
  | nil => simp [registerClient, regLookup, h, h']
  | cons kv rest ih =>
    obtain ⟨k, v⟩ := kv
    by_cases hk : k = id
    · have hkq : ¬ k = q := by
        rw [hk]
        exact h'
      simp [registerClient, regLookup, hk, hkq, h']
    · by_cases hq : k = q
      · simp [registerClient, regLookup, hk, hq, h, h']
      · simp [registerClient, regLookup, hk, hq, h, h', ih]

theorem mem_registerClient (reg : Registry) (id p : List Char) (ms : List (List Char)) :
    ∀ e ∈ registerClient reg id p ms, e ∈ reg ∨ e = (id, { provider := p, models := ms }) := by
  induction reg with
  | nil =>
    intro e he
    simp [registerClient] at he
    exact Or.inr he
  | cons kv rest ih =>
    intro e he
    obtain ⟨k, v⟩ := kv
    by_cases hk : k = id
    · simp [registerClient, hk] at he
      rcases he with he | he
      · exact Or.inr (by simp [he])
      · exact Or.inl (List.mem_cons_of_mem _ he)
    · simp [registerClient, hk] at he
      rcases he with he | he
      · exact Or.inl (by simp [he])
      · rcases ih e he with h1 | h1
        · exact Or.inl (List.mem_cons_of_mem _ h1)
        · exact Or.inr h1

theorem nonChutes_registerClient :
    ∀ (reg : Registry) (id : List Char) (ms : List (List Char)),
    (∀ e ∈ reg, e.1 = id → e.2.provider = chutesStr) →
    nonChutesModelIDs (registerClient reg id chutesStr ms) = nonChutesModelIDs reg := by
  intro reg
  induction reg with
  | nil =>
    intro id ms _
    simp [registerClient, nonChutesModelIDs]
  | cons kv rest ih =>
    intro id ms H
    obtain ⟨k, v⟩ := kv
    by_cases hk : k = id
    · have hv : v.provider = chutesStr := H (k, v) (by simp) hk
      simp [registerClient, nonChutesModelIDs, hk, hv]
    · have hrec := ih id ms (fun e he hei => H e (by simp [he]) hei)
      simp [registerClient, nonChutesModelIDs, hk, hrec]

theorem applyChutesStep_eq_of_false (reg : Registry) (b : Auth)
    (hc : chutesFallback b = false) : applyChutesStep reg b = reg := by
  unfold applyChutesStep
  rw [hc]
  simp

theorem applyChutesStep_eq_of_none (reg : Registry) (b : Auth)
    (hl : regLookup reg b.id = none) : applyChutesStep reg b = reg := by
  unfold applyChutesStep
  split_ifs with hc
  · simp only [hl]
  · rfl

theorem applyChutesStep_eq_of_some (reg : Registry) (b : Auth) (entry : RegistryEntry)
    (hc : chutesFallback b = true) (hl : regLookup reg b.id = some entry) :
    applyChutesStep reg b =
      registerClient reg b.id chutesStr
        (entry.models.filter (keepChutesModel (nonChutesModelIDs reg))) := by
  unfold applyChutesStep
  rw [hc]
  simp only [hl, if_true]

theorem mem_applyChutesStep (reg : Registry) (b : Auth) :
    ∀ e ∈ applyChutesStep reg b, e ∈ reg ∨ e.2.provider = chutesStr := by
  intro e he
  unfold applyChutesStep at he
  split_ifs at he with hc
  · split at he
    · rcases mem_registerClient _ _ _ _ e he with h1 | h1
      · exact Or.inl h1
      · right
        rw [h1]
    · exact Or.inl he
  · exact Or.inl he

theorem chutesIdsOnly_step (b : Auth) (rest : List Auth) (reg : Registry)
    (H : chutesIdsOnly (b :: rest) reg) :
    chutesIdsOnly rest (applyChutesStep reg b) := by
  intro c hc hcp e he hei
  rcases mem_applyChutesStep reg b e he with h1 | h1
  · exact H c (List.mem_cons_of_mem _ hc) hcp e h1 hei
  · exact h1

theorem applyChutesStep_nonChutes (b : Auth) (reg : Registry)
    (Hid : ∀ e ∈ reg, e.1 = b.id → e.2.provider = chutesStr) :
    nonChutesModelIDs (applyChutesStep reg b) = nonChutesModelIDs reg := by
  unfold applyChutesStep
  split_ifs with hc
  · split
    · exact nonChutes_registerClient reg b.id _ Hid
    · rfl
  · rfl

theorem applyChutesStep_lookup_ne (reg : Registry) (b : Auth) (id : List Char)
    (h : ¬ id = b.id) :
    regLookup (applyChutesStep reg b) id = regLookup reg id := by
  unfold applyChutesStep
  split_ifs with hc
  · split
    · exact regLookup_registerClient_other reg b.id id chutesStr _ h
    · rfl
  · rfl

theorem filter_keep_idem (pool : List (List Char)) (l : List (List Char)) :
    List.filter (keepChutesModel pool) (List.filter (keepChutesModel pool) l) =
      List.filter (keepChutesModel pool) l := by
  induction l with
  | nil => rfl
  | cons m rest ih =>
    by_cases h : keepChutesModel pool m = true
    · simp [List.filter_cons, h, ih]
    · simp [List.filter_cons, h, ih]

theorem applyChutes_foldSpec :
    ∀ (auths : List Auth) (reg : Registry), chutesIdsOnly auths reg →
    nonChutesModelIDs (List.foldl applyChutesStep reg auths) = nonChutesModelIDs reg ∧
    (∀ id ms, regLookup reg id =
        some { provider := chutesStr,
               models := List.filter (keepChutesModel (nonChutesModelIDs reg)) ms } →
      regLookup (List.foldl applyChutesStep reg auths) id =
        some { provider := chutesStr,
               models := List.filter (keepChutesModel (nonChutesModelIDs reg)) ms }) ∧
    (∀ a ∈ auths, chutesFallback a = true →
      ∀ entry0, regLookup reg a.id = some entry0 →
        regLookup (List.foldl applyChutesStep reg auths) a.id =
          some { provider := chutesStr,
                 models := List.filter (keepChutesModel (nonChutesModelIDs reg))
                   entry0.models }) := by
  intro auths
  induction auths with
  | nil =>
    intro reg _
    exact ⟨rfl, fun id ms h => h, fun a ha => absurd ha (by simp)⟩
  | cons b rest ih =>
    intro reg H
    have IH := ih (applyChutesStep reg b) (chutesIdsOnly_step b rest reg H)
    by_cases hcb : chutesFallback b = true
    · have hbp : b.provider = chutesStr := by
        unfold chutesFallback at hcb
        rw [Bool.and_eq_true] at hcb
        exact of_decide_eq_true hcb.1
      have Hb : ∀ e ∈ reg, e.1 = b.id → e.2.provider = chutesStr :=
        fun e he hei => H b (by simp) hbp e he hei
      have hnc : nonChutesModelIDs (applyChutesStep reg b) = nonChutesModelIDs reg :=
        applyChutesStep_nonChutes b reg Hb
      cases hl : regLookup reg b.id with
      | none =>
        have hstep : applyChutesStep reg b = reg := applyChutesStep_eq_of_none reg b hl
        rw [hstep] at IH
        refine ⟨by simpa [List.foldl_cons, hstep] using IH.1, ?_, ?_⟩
        · intro id ms hid
          simpa [List.foldl_cons, hstep] using IH.2.1 id ms hid
        · intro a ha haf entry0 hm0
          rcases List.mem_cons.mp ha with rfl | har
          · rw [hm0] at hl
            exact absurd hl (by simp)
          · simpa [List.foldl_cons, hstep] using IH.2.2 a har haf entry0 hm0
      | some entryB =>
        have hstep := applyChutesStep_eq_of_some reg b entryB hcb hl
        refine ⟨?_, ?_, ?_⟩
        · rw [List.foldl_cons, IH.1, hnc]
        · intro id ms hid
          rw [List.foldl_cons]
          have hid' : regLookup (applyChutesStep reg b) id =
              some { provider := chutesStr,
                     models := List.filter (keepChutesModel
                       (nonChutesModelIDs (applyChutesStep reg b))) ms } := by
            rw [hnc]
            by_cases hqi : id = b.id
            · have hEB : entryB =
                  { provider := chutesStr,
                    models := List.filter (keepChutesModel (nonChutesModelIDs reg)) ms } := by
                rw [hqi] at hid
                rw [hid] at hl
                exact (Option.some.inj hl).symm
              rw [hqi, hstep, regLookup_registerClient_self, hEB]
              simp [filter_keep_idem]
            · rw [applyChutesStep_lookup_ne reg b id hqi]
              exact hid
          have hres := IH.2.1 id ms hid'
          rw [hnc] at hres
          exact hres
        · intro a ha haf entry0 hm0
          rcases List.mem_cons.mp ha with rfl | har
          · -- a's own step filters the entry; later steps leave it intact
            have hEB : entryB = entry0 := Option.some.inj (hl.symm.trans hm0)
            have hid' : regLookup (applyChutesStep reg a) a.id =
                some { provider := chutesStr,
                       models := List.filter (keepChutesModel
                         (nonChutesModelIDs (applyChutesStep reg a))) entry0.models } := by
              rw [hnc, hstep, regLookup_registerClient_self, hEB]
            have hres := IH.2.1 a.id entry0.models hid'
            rw [hnc] at hres
            rw [List.foldl_cons]
            exact hres
          · by_cases hqi : a.id = b.id
            · have hEB : entryB = entry0 := by
                rw [hqi] at hm0
                exact Option.some.inj (hl.symm.trans hm0)
              have hid' : regLookup (applyChutesStep reg b) a.id =
                  some { provider := chutesStr,
                         models := List.filter (keepChutesModel
                           (nonChutesModelIDs (applyChutesStep reg b))) entry0.models } := by
                rw [hnc, hqi, hstep, regLookup_registerClient_self, hEB]
              have hres := IH.2.1 a.id entry0.models hid'
              rw [hnc] at hres
              rw [List.foldl_cons]
              exact hres
            · have hid' : regLookup (applyChutesStep reg b) a.id = some entry0 := by
                rw [applyChutesStep_lookup_ne reg b a.id hqi]
                exact hm0
              have hres := IH.2.2 a har haf entry0 hid'
              rw [hnc] at hres
              rw [List.foldl_cons]
              exact hres
    · have hstep : applyChutesStep reg b = reg :=
        applyChutesStep_eq_of_false reg b (by simpa using hcb)
      rw [hstep] at IH
      refine ⟨by simpa [List.foldl_cons, hstep] using IH.1, ?_, ?_⟩
      · intro id ms hid
        simpa [List.foldl_cons, hstep] using IH.2.1 id ms hid
      · intro a ha haf entry0 hm0
        rcases List.mem_cons.mp ha with rfl | har
        · exact absurd haf hcb
        · simpa [List.foldl_cons, hstep] using IH.2.2 a har haf entry0 hm0

/-- C4: `applyChutesModelPriority` replaces the registry entry of every
fallback-priority chutes auth record by exactly the models that either start
with the fallback prefix or are not advertised by any non-fallback
provider. -/
theorem c4_chutesPriorityFilter (auths : List Auth) (reg : Registry) (a : Auth)
    (ha : a ∈ auths) (hprov : a.provider = chutesStr)
    (hprio : attrLookup a.attributes priorityKey = some fallbackStr)
    (H : chutesIdsOnly auths reg)
    (entry0 : RegistryEntry) (hm0 : regLookup reg a.id = some entry0) :
    regLookup (applyChutesModelPriority auths reg) a.id =
      some { provider := chutesStr,
             models := entry0.models.filter (keepChutesModel (nonChutesModelIDs reg)) } :=
  (applyChutes_foldSpec auths reg H).2.2 a ha
    (by simp [chutesFallback, hprov, hprio]) entry0 hm0

/-- Witness for C4 at scenario S5: with `openai-1 → [gpt-4o]` and
`chutes-1 → [gpt-4o, chutes-gpt-4o, only-chutes-model,
chutes-only-chutes-model]` and auth `chutes-1` at `priority=fallback`, the
pass leaves `chutes-1 → [chutes-gpt-4o, only-chutes-model,
chutes-only-chutes-model]`: `gpt-4o` is hidden, every prefixed alias
survives. -/
theorem c4_witness :
    regLookup (applyChutesModelPriority c4Auths c4Reg) c4ChutesId =
      some { provider := chutesStr, models := c4Expected } := by
  have h := c4_chutesPriorityFilter c4Auths c4Reg c4Auth (by decide) (by decide)
    (by decide) (by decide) c4Entry (by decide)
  have hid : c4Auth.id = c4ChutesId := rfl
  rw [← hid, h]
  decide

/-- Witness for the amended C9: with a failure injected at the temp-file
write, the call errors, the temp file is gone, and the destination's
previous contents are untouched. -/
theorem c9_witness :
    exceptIsError (AtomicWriteFile c9FS c9Path c9Data 384 c9Tmp c9WriteFault).1 = true ∧
    fsLookup (AtomicWriteFile c9FS c9Path c9Data 384 c9Tmp c9WriteFault).2.1 c9Tmp = none ∧
    fsLookup (AtomicWriteFile c9FS c9Path c9Data 384 c9Tmp c9WriteFault).2.1 c9Path =
      fsLookup c9FS c9Path := by
  have h := c9_atomicWriteAmended c9FS c9Path c9Data 384 c9Tmp c9WriteFault
    (by decide) (by decide)
  exact ⟨by decide, (h.1 (by decide)).1, (h.1 (by decide)).2 (by decide)⟩

/-!
### Validation of the spec-modelled definitions against the repository tests

Each example replays one unit test of the repository (string payloads with
braces are replaced by brace-free ones; only the framing matters). -/

-- TestResponsesSSEWriteState_NoLeadingDelimiterBeforeFirstData (and S1)
example : sseOutput [("".data), ("event: x".data)] = ("".data) := by decide

-- TestResponsesSSEWriteState_EventNewlineOnlyAfterNonEmptyData
example : sseOutput [("data: A".data), ("event: e2".data), ("data: B".data)] =
    ("data: A\n\nevent: e2\ndata: B\n\n".data) := by decide

-- TestResponsesSSEWriteState_MultilineEmitEventChunk (and S2)
example : sseOutput [("event: ec\ndata: A".data), ("".data)] =
    ("event: ec\ndata: A\n\n".data) := by decide

-- TestResponsesSSEWriteState_EmptyDataPayloadFiltered
example : sseOutput [("data: ".data)] = ("".data) := by decide

example : sseOutput [("data:   ".data)] = ("".data) := by decide

example : sseOutput [("data: ok".data)] = ("data: ok\n\n".data) := by decide

example : sseOutput [("event: test".data), ("data: ".data), ("".data),
    ("data: ok".data), ("".data)] = ("data: ok\n\n".data) := by decide

-- TestResponsesSSEWriteState_WriteDoneGated
example : sseOutput [] = ("".data) := by decide

example : sseOutput [("data: ok".data), ("".data)] = ("data: ok\n\n".data) := by decide

-- TestResponsesSSEWriteState_EventOnlyBlockAfterValidEvent
example : sseOutput [("event: e1".data), ("data: A".data), ("".data),
    ("event: e2".data), ("data: ".data), ("".data)] =
    ("event: e1\ndata: A\n\n".data) := by decide

-- TestResponsesSSEWriteState_ConsecutiveEventsWithEmptyData
example : sseOutput [("event: first".data), ("data: ".data), ("event: second".data),
    ("data: ".data)] = ("".data) := by decide

-- TestResponsesSSEWriteState_TrailingNewlineDoesNotDropEvent (and S3)
example : sseOutput [("event: ec\n".data), ("data: A".data)] =
    ("event: ec\ndata: A\n\n".data) := by decide

-- TestResolveCodexAlias (table from the executor tests)
example : resolveCodexAlias ("gpt-5-minimal".data) =
    some (("gpt-5".data), ("minimal".data)) := by decide

example : resolveCodexAlias ("gpt-5-codex-low".data) =
    some (("gpt-5-codex".data), ("low".data)) := by decide

example : resolveCodexAlias ("gpt-5.1-none".data) =
    some (("gpt-5.1".data), ("none".data)) := by decide

example : resolveCodexAlias ("gpt-5.1-codex-max-xhigh".data) =
    some (("gpt-5.1-codex-max".data), ("xhigh".data)) := by decide

example : resolveCodexAlias ("gpt-5.2-codex-xhigh".data) =
    some (("gpt-5.2-codex".data), ("xhigh".data)) := by decide

example : resolveCodexAlias ("gpt-5.3-codex-spark-low".data) =
    some (("gpt-5.3-codex-spark".data), ("low".data)) := by decide

example : resolveCodexAlias ("gpt-5".data) = none := by decide

example : resolveCodexAlias ("gpt-5-codex".data) = none := by decide

example : resolveCodexAlias ("claude-sonnet-4".data) = none := by decide

example : resolveCodexAlias ("".data) = none := by decide

-- TestSetReasoningEffortByAlias: lowercasing, trimming, empty effort
example : getReasoningEffort (setReasoningEffortByAlias [] ("gpt-5.1-codex-max".data)
    ("XHIGH".data)) = some ("xhigh".data) := by decide

example : getReasoningEffort (setReasoningEffortByAlias [] ("gpt-5".data)
    ("  medium  ".data)) = some ("medium".data) := by decide

example : getReasoningEffort (setReasoningEffortByAlias [] ("gpt-5".data) ("".data)) =
    none := by decide

example : getStrField (setReasoningEffortByAlias
    [((("model".data)), Json.str ("gpt-5-high".data))] ("gpt-5".data) ("high".data))
    modelKey = some ("gpt-5".data) := by decide

-- shouldBypassProxy: star, exact host, leading-dot suffix, subdomain of bare host
example : shouldBypassProxy ("api.example.com:443".data)
    (parseNoProxyList ("*".data)) = true := by decide

example : shouldBypassProxy ("api.example.com".data)
    (parseNoProxyList (".example.com".data)) = true := by decide

example : shouldBypassProxy ("api.example.com".data)
    (parseNoProxyList ("example.com".data)) = true := by decide

example : shouldBypassProxy ("example.com".data)
    (parseNoProxyList ("example.com".data)) = true := by decide

example : shouldBypassProxy ("notexample.com".data)
    (parseNoProxyList ("example.com".data)) = false := by decide

example : shouldBypassProxy ("api.example.com".data) [] = false := by decide

-- isRetryableElectronError: substring match on the uppercased message
example : isRetryableElectronError ("net::ERR_TIMED_OUT".data) = true := by decide

example : isRetryableElectronError ("err_connection_closed while connecting".data) =
    true := by decide

example : isRetryableElectronError ("ERR_NAME_NOT_RESOLVED".data) = false := by decide

-- AtomicWriteFile happy path: contents replaced, temp removed
example : exceptIsError (AtomicWriteFile c9FS c9Path c9Data 384 c9Tmp noFaults).1 = false ∧
    fsLookup (AtomicWriteFile c9FS c9Path c9Data 384 c9Tmp noFaults).2.1 c9Path =
      some { content := c9Data, perm := 384 } := by decide

end CLIProxy
